/-
  Verification of the sliding-block-puzzle solver (src/puzzle.py) against its
  natural-language specification.

  The Python program is shallowly embedded: Python lists become `List`,
  Python `int` becomes `Int`, Python exceptions become an explicit `PyErr`
  error type threaded through `Except`, and Python `dict`s become
  association lists whose lookup returns the most recent binding.
  Machine-level details that matter are kept: Python's negative-index
  wrap-around on list access, the exact evaluation order of the tuple
  assignment in `move_blank`, CPython's `heapq` sift algorithms, and
  Python's tuple comparison (which falls through to comparing `Puzzle`
  objects when the integer priorities are equal, raising `TypeError`
  because `Puzzle` defines no ordering).
-/
import Mathlib

set_option maxHeartbeats 1000000
set_option linter.all false

namespace SlidingPuzzle

/-- Python exception kinds that the embedded code can raise. -/
inductive PyErr where
  | valueError
  | indexError
  | keyError
  | typeError
  deriving DecidableEq, Repr

/-- Resolution of a Python list index: indices in `[0, len)` are used as is,
indices in `[-len, 0)` wrap around, anything else is out of range. -/
def pyIdx (len : Nat) (i : Int) : Option Nat :=
  if 0 ≤ i then
    if i < (len : Int) then some i.toNat else none
  else
    if 0 ≤ i + (len : Int) then some (i + (len : Int)).toNat else none

/-- Python `xs[i]` on a list: wrap-around for negative indices, `IndexError`
when out of range. -/
def pyGet {α : Type} (xs : List α) (i : Int) : Except PyErr α :=
  match pyIdx xs.length i with
  | some k =>
    match xs[k]? with
    | some v => .ok v
    | none => .error .indexError
  | none => .error .indexError

/-- Python `xs[i] = v` on a list: same index resolution as `pyGet`. -/
def pySet {α : Type} (xs : List α) (i : Int) (v : α) : Except PyErr (List α) :=
  match pyIdx xs.length i with
  | some k => .ok (xs.set k v)
  | none => .error .indexError

/-- The board of the Python program: a list of rows of tile labels. -/
abbrev Board := List (List Int)

/-- Python `board[i][j]`. -/
def pyGet2 (b : Board) (i j : Int) : Except PyErr Int := do
  let row ← pyGet b i
  pyGet row j

/-- Python `board[i][j] = v` (mutation of the row, written back functionally). -/
def pySet2 (b : Board) (i j : Int) (v : Int) : Except PyErr Board := do
  let row ← pyGet b i
  let row' ← pySet row j v
  pySet b i row'

/-- Python `range(n)` as a list of `Int`. -/
def pyRange (n : Int) : List Int := (List.range n.toNat).map Int.ofNat

/-- Lookup in an embedded Python `dict` (most recent binding wins). -/
def dictGet {K V : Type} [DecidableEq K] : List (K × V) → K → Option V
  | [], _ => none
  | (k', v) :: d, k => if k = k' then some v else dictGet d k

/-- `d[k] = v` on an embedded Python `dict`: the new binding shadows old ones. -/
def dictInsert {K V : Type} (d : List (K × V)) (k : K) (v : V) : List (K × V) :=
  (k, v) :: d

/-- `tamuda/Sliding-block-puzzle` `Puzzle`: board, size, and the cached blank
position computed by `_find_blank` at construction time. -/
structure Puzzle where
  board : Board
  size : Int
  blank_pos : Int × Int
  deriving DecidableEq, Repr

instance : Inhabited Puzzle := ⟨⟨[], 0, (0, 0)⟩⟩

/-- Inner loop of `Puzzle._find_blank`: scan the columns of row `r`. -/
def find_blank_cols (board : Board) (r : Int) : List Int → Except PyErr (Option (Int × Int))
  | [] => .ok none
  | c :: cs => do
    let t ← pyGet2 board r c
    if t = 0 then .ok (some (r, c)) else find_blank_cols board r cs

/-- Outer loop of `Puzzle._find_blank`: scan the rows. -/
def find_blank_rows (board : Board) (size : Int) : List Int → Except PyErr (Option (Int × Int))
  | [] => .ok none
  | r :: rs => do
    match ← find_blank_cols board r (pyRange size) with
    | some p => .ok (some p)
    | none => find_blank_rows board size rs

/-- `Puzzle._find_blank`: the first `(row, col)` in row-major order with
`board[row][col] == 0`; `ValueError` when no blank is found. -/
def find_blank (board : Board) (size : Int) : Except PyErr (Int × Int) := do
  match ← find_blank_rows board size (pyRange size) with
  | some p => .ok p
  | none => .error .valueError

/-- `Puzzle.__init__(board, size)`: stores the board and size and caches the
blank position; the only possible failure is `_find_blank`'s `ValueError`.
No permutation validation is performed. -/
def mkPuzzle (board : Board) (size : Int) : Except PyErr Puzzle := do
  let bp ← find_blank board size
  .ok ⟨board, size, bp⟩

/-- `Puzzle.get_possible_moves`: appends `UP`, `DOWN`, `LEFT`, `RIGHT` in this
fixed order, each under its boundary condition. -/
def get_possible_moves (p : Puzzle) : List String :=
  (if p.blank_pos.1 > 0 then ["UP"] else []) ++
  (if p.blank_pos.1 < p.size - 1 then ["DOWN"] else []) ++
  (if p.blank_pos.2 > 0 then ["LEFT"] else []) ++
  (if p.blank_pos.2 < p.size - 1 then ["RIGHT"] else [])

/-- Target cell of `move_blank` for a recognized direction string. -/
def moveTarget (bp : Int × Int) (direction : String) : Option (Int × Int) :=
  if direction = "UP" then some (bp.1 - 1, bp.2)
  else if direction = "DOWN" then some (bp.1 + 1, bp.2)
  else if direction = "LEFT" then some (bp.1, bp.2 - 1)
  else if direction = "RIGHT" then some (bp.1, bp.2 + 1)
  else none

/-- `Puzzle.move_blank(direction)`: `ValueError` for an unrecognized direction
string; otherwise the tuple assignment
`new_board[row][col], new_board[tr][tc] = new_board[tr][tc], new_board[row][col]`
(RHS reads first, left-to-right, then assignments left-to-right), and the
result is passed to `Puzzle.__init__`. There is no check that the target is
on the board: Python's negative indices wrap around, and an index equal to
`size` raises `IndexError`. -/
def move_blank (p : Puzzle) (direction : String) : Except PyErr Puzzle := do
  let row := p.blank_pos.1
  let col := p.blank_pos.2
  match moveTarget p.blank_pos direction with
  | none => .error .valueError
  | some (tr, tc) => do
    let a ← pyGet2 p.board tr tc
    let b ← pyGet2 p.board row col
    let b1 ← pySet2 p.board row col a
    let b2 ← pySet2 b1 tr tc b
    mkPuzzle b2 p.size

/-- `Puzzle.is_goal_state`: structural equality of the grid with the goal. -/
def is_goal_state (p : Puzzle) (goal_board : Board) : Bool :=
  p.board = goal_board

/-- `Puzzle.get_state_key`: the tuple-of-tuples key; injective over boards, so
the board itself serves as the embedded key. -/
def get_state_key (p : Puzzle) : Board := p.board

/-- `generate_goal_state(size)`: blank at the top-left corner, then
`1, 2, ..., size*size - 1` row-major. -/
def generate_goal_state (size : Int) : Board :=
  (List.range size.toNat).map (fun i =>
    (List.range size.toNat).map (fun j =>
      if i = 0 ∧ j = 0 then 0 else (i * size.toNat + j : Nat)))

/-- Goal-position table: tile label → goal `(row, col)`. -/
abbrev GoalDict := List (Int × (Int × Int))

/-- Inner loop of `heuristic`: accumulate the Manhattan terms of one row.
`goal_positions[tile]` raises `KeyError` when the label is absent. -/
def heuristic_cols (board : Board) (gp : GoalDict) (row : Int) :
    List Int → Int → Except PyErr Int
  | [], acc => .ok acc
  | c :: cs, acc => do
    let tile ← pyGet2 board row c
    if tile ≠ 0 then
      match dictGet gp tile with
      | some (gr, gc) => heuristic_cols board gp row cs (acc + (|row - gr| + |c - gc|))
      | none => .error .keyError
    else
      heuristic_cols board gp row cs acc

/-- Outer loop of `heuristic`. -/
def heuristic_rows (board : Board) (gp : GoalDict) (size : Int) :
    List Int → Int → Except PyErr Int
  | [], acc => .ok acc
  | r :: rs, acc => do
    let acc' ← heuristic_cols board gp r (pyRange size) acc
    heuristic_rows board gp size rs acc'

/-- `heuristic(puzzle, goal_positions)`: sum of Manhattan distances of all
non-blank tiles from their goal positions. -/
def heuristic (p : Puzzle) (goal_positions : GoalDict) : Except PyErr Int :=
  heuristic_rows p.board goal_positions p.size (pyRange p.size) 0

/-- Inner loop of the goal-position table construction in `astar_search`
(`goal_positions[goal_board[i][j]] = (i, j)`). -/
def bgp_cols (goal_board : Board) (i : Int) :
    List Int → GoalDict → Except PyErr GoalDict
  | [], d => .ok d
  | j :: js, d => do
    let t ← pyGet2 goal_board i j
    bgp_cols goal_board i js (dictInsert d t (i, j))

/-- Outer loop of the goal-position table construction. Note that the Python
code iterates both coordinates over `range(len(goal_board))`. -/
def bgp_rows (goal_board : Board) :
    List Int → GoalDict → Except PyErr GoalDict
  | [], d => .ok d
  | i :: is', d => do
    let d' ← bgp_cols goal_board i (pyRange (goal_board.length : Int)) d
    bgp_rows goal_board is' d'

/-- The goal-position table built at the top of `astar_search`. -/
def build_goal_positions (goal_board : Board) : Except PyErr GoalDict :=
  bgp_rows goal_board (pyRange (goal_board.length : Int)) []

/-- A frontier entry as pushed by the Python code: `(f_score, puzzle)` —
note the absence of any tie-break field. -/
abbrev Entry := Int × Puzzle

/-- Python comparison of two frontier entries (tuple `__lt__`): the integer
priorities are compared first; on a tie the `Puzzle` objects are compared,
which succeeds (with `False`, by exhaustion of the tuple) only when their
boards are equal (`Puzzle.__eq__`) and otherwise raises `TypeError`,
since `Puzzle` defines no order. -/
def entryLt (a b : Entry) : Except PyErr Bool :=
  if a.1 = b.1 then
    if a.2.board = b.2.board then .ok false else .error .typeError
  else .ok (decide (a.1 < b.1))

/-- CPython `heapq._siftdown(heap, startpos, pos)` with `newitem = heap[pos]`:
walk `newitem` up toward `startpos` while it compares less than its parent.
The extra `Nat` argument is an upper bound on the number of iterations
(structural fuel); callers pass at least `pos`, which always suffices since
`pos` strictly decreases, so the loop always exits through its own
condition and the bound never changes the result. -/
def siftdownAux (startpos : Nat) (newitem : Entry) :
    Nat → List Entry → Nat → Except PyErr (List Entry)
  | 0, heap, pos => .ok (heap.set pos newitem)
  | fuel + 1, heap, pos =>
    if startpos < pos then
      let parentpos := (pos - 1) / 2
      let parent := heap.getD parentpos newitem
      match entryLt newitem parent with
      | .error e => .error e
      | .ok true => siftdownAux startpos newitem fuel (heap.set pos parent) parentpos
      | .ok false => .ok (heap.set pos newitem)
    else .ok (heap.set pos newitem)

/-- CPython `heapq.heappush`: append, then sift the new item up. -/
def heappush (heap : List Entry) (item : Entry) : Except PyErr (List Entry) :=
  siftdownAux 0 item heap.length (heap ++ [item]) heap.length

/-- The loop of CPython `heapq._siftup(heap, pos)`: move the smaller child up
until a leaf is reached, returning the heap and the final position of the
hole. Comparing the two children can itself raise `TypeError`. The `Nat`
argument is structural fuel as in `siftdownAux`; callers pass `endpos`,
which always suffices since `pos` strictly increases below `endpos`. -/
def siftupAux (endpos : Nat) (newitem : Entry) :
    Nat → List Entry → Nat → Except PyErr (List Entry × Nat)
  | 0, heap, pos => .ok (heap.set pos newitem, pos)
  | fuel + 1, heap, pos =>
    let childpos := 2 * pos + 1
    if childpos < endpos then
      let rightpos := childpos + 1
      if rightpos < endpos then
        match entryLt (heap.getD childpos newitem) (heap.getD rightpos newitem) with
        | .error e => .error e
        | .ok true =>
          siftupAux endpos newitem fuel (heap.set pos (heap.getD childpos newitem)) childpos
        | .ok false =>
          siftupAux endpos newitem fuel (heap.set pos (heap.getD rightpos newitem)) rightpos
      else
        siftupAux endpos newitem fuel (heap.set pos (heap.getD childpos newitem)) childpos
    else .ok (heap.set pos newitem, pos)

/-- CPython `heapq._siftup(heap, pos)`: bubble the hole down to a leaf, place
`newitem` there, then sift it back up toward `pos`. -/
def siftup (heap : List Entry) (pos : Nat) : Except PyErr (List Entry) := do
  let newitem := heap.getD pos default
  let (h1, finalpos) ← siftupAux heap.length newitem heap.length heap pos
  siftdownAux pos newitem finalpos h1 finalpos

/-- CPython `heapq.heappop`: pop the last element; if the heap is still
non-empty, replace the root with it and sift up. `IndexError` on an empty
heap. -/
def heappop (heap : List Entry) : Except PyErr (Entry × List Entry) :=
  match heap.getLast? with
  | none => .error .indexError
  | some lastelt =>
    let rest := heap.dropLast
    match rest with
    | [] => .ok (lastelt, [])
    | r0 :: _ => do
      let h1 := rest.set 0 lastelt
      let h2 ← siftup h1 0
      .ok (r0, h2)

/-- State keys of the search maps: `get_state_key` values. -/
abbrev Key := Board

/-- The `came_from` map: key → `(predecessor puzzle, move)`. -/
abbrev CameFrom := List (Key × (Puzzle × String))

/-- The `g_score` / `f_score` maps. -/
abbrev ScoreDict := List (Key × Int)

/-- The loop of `reconstruct_path`: follow `came_from` links, appending each
move, until the key is absent; `none` when the supplied fuel runs out
(the Python loop would not terminate on a cyclic `came_from`, which never
arises in a real search). -/
def reconstruct_path_aux (came_from : CameFrom) :
    Nat → Key → List String → Option (List String)
  | 0, _, _ => none
  | fuel + 1, ckey, acc =>
    match dictGet came_from ckey with
    | none => some acc.reverse
    | some (prev, move) =>
      reconstruct_path_aux came_from fuel (get_state_key prev) (acc ++ [move])

/-- `reconstruct_path(came_from, current)`: collect the moves goal→start and
reverse them. -/
def reconstruct_path (fuel : Nat) (came_from : CameFrom) (current : Puzzle) :
    Option (List String) :=
  reconstruct_path_aux came_from fuel (get_state_key current) []

/-- Result of one iteration of the `astar_search` loop body. -/
inductive IterOut where
  | found (path : List String)
  | reconOut
  | next (open_set : List Entry) (came_from : CameFrom)
      (g_score : ScoreDict) (f_score : ScoreDict)
  deriving DecidableEq

/-- The expansion of a single move inside the `for move in
current.get_possible_moves()` loop of `astar_search`. -/
def astar_expand (goal_positions : GoalDict) (current : Puzzle) (move : String)
    (st : List Entry × CameFrom × ScoreDict × ScoreDict) :
    Except PyErr (List Entry × CameFrom × ScoreDict × ScoreDict) := do
  let (open_set, came_from, g_score, f_score) := st
  let neighbor ← move_blank current move
  let g ← match dictGet g_score (get_state_key current) with
    | some g => Except.ok g
    | none => Except.error .keyError
  let tentative_g_score := g + 1
  let neighbor_key := get_state_key neighbor
  let better : Bool :=
    match dictGet g_score neighbor_key with
    | none => true
    | some gn => decide (tentative_g_score < gn)
  if better then do
    let came_from' := dictInsert came_from neighbor_key (current, move)
    let g_score' := dictInsert g_score neighbor_key tentative_g_score
    let h ← heuristic neighbor goal_positions
    let f_score_neighbor := tentative_g_score + h
    let f_score' := dictInsert f_score neighbor_key f_score_neighbor
    let open_set' ← heappush open_set (f_score_neighbor, neighbor)
    .ok (open_set', came_from', g_score', f_score')
  else
    .ok (open_set, came_from, g_score, f_score)

/-- The body of the `while open_set` loop of `astar_search`, applied to the
puzzle just popped from the heap: goal test first, then neighbor expansion.
There is no staleness check on the popped entry. -/
def astar_iter (goal_board : Board) (goal_positions : GoalDict)
    (current : Puzzle) (open_set : List Entry) (came_from : CameFrom)
    (g_score : ScoreDict) (f_score : ScoreDict) : Except PyErr IterOut := do
  if is_goal_state current goal_board then
    match reconstruct_path (came_from.length + 1) came_from current with
    | some p => .ok (.found p)
    | none => .ok .reconOut
  else do
    let st ← (get_possible_moves current).foldlM
      (fun st move => astar_expand goal_positions current move st)
      (open_set, came_from, g_score, f_score)
    .ok (.next st.1 st.2.1 st.2.2.1 st.2.2.2)

/-- Outcome of the embedded `astar_search`. -/
inductive SearchResult where
  | found (moves : List String)
  | noSolution
  | fuelOut
  deriving DecidableEq, Repr

/-- The `while open_set` loop of `astar_search`, with explicit fuel (the
Python loop has no bound; the fuel only produces the distinguished
`fuelOut` marker, never a fake result). -/
def astar_loop (goal_board : Board) (goal_positions : GoalDict) :
    Nat → List Entry → CameFrom → ScoreDict → ScoreDict →
    Except PyErr SearchResult
  | 0, _, _, _, _ => .ok .fuelOut
  | fuel + 1, open_set, came_from, g_score, f_score =>
    match open_set with
    | [] => .ok .noSolution
    | _ :: _ => do
      let ((_, current), open1) ← heappop open_set
      match ← astar_iter goal_board goal_positions current open1 came_from
          g_score f_score with
      | .found p => .ok (.found p)
      | .reconOut => .ok .fuelOut
      | .next o c g f => astar_loop goal_board goal_positions fuel o c g f

/-- `astar_search(initial_puzzle, goal_board)`: build the goal-position
table, seed the frontier with `(0, initial_puzzle)` and the score maps
with the start key, then run the loop. -/
def astar_search (fuel : Nat) (initial_puzzle : Puzzle) (goal_board : Board) :
    Except PyErr SearchResult := do
  let goal_positions ← build_goal_positions goal_board
  let open0 ← heappush [] (0, initial_puzzle)
  let g0 := dictInsert [] (get_state_key initial_puzzle) 0
  let h0 ← heuristic initial_puzzle goal_positions
  let f0 := dictInsert [] (get_state_key initial_puzzle) h0
  astar_loop goal_board goal_positions fuel open0 [] g0 f0

/-! ### Specification-side definitions -/

/-- Clean (total) cell accessor used in statements and proofs. -/
def cellN (b : Board) (i j : Nat) : Int := (b.getD i []).getD j 0

/-- Functional update of one cell, the normal form of `pySet2` in bounds. -/
def updateCell (b : Board) (i j : Nat) (v : Int) : Board :=
  b.set i ((b.getD i []).set j v)

/-- The board is an `n × n` grid. -/
def boardShape (b : Board) (n : Int) : Prop :=
  0 ≤ n ∧ b.length = n.toNat ∧ ∀ row ∈ b, row.length = n.toNat

/-- The permutation invariant of the spec: an `n × n` grid whose labels are
exactly `0 .. n²-1`. -/
def validBoard (b : Board) (n : Int) : Prop :=
  0 < n ∧ boardShape b n ∧
    b.flatten.Perm ((List.range (n.toNat * n.toNat)).map Int.ofNat)

/-- A valid `Puzzle` state: a valid board whose cached `blank_pos` is what
`_find_blank` computes. -/
def validPuzzle (p : Puzzle) : Prop :=
  validBoard p.board p.size ∧ find_blank p.board p.size = .ok p.blank_pos

instance {ε α : Type} [DecidableEq ε] [DecidableEq α] : DecidableEq (Except ε α) := fun a b =>
  match a, b with
  | .ok x, .ok y =>
    if h : x = y then .isTrue (by rw [h]) else .isFalse (fun hh => h (Except.ok.inj hh))
  | .error e, .error f =>
    if h : e = f then .isTrue (by rw [h]) else .isFalse (fun hh => h (Except.error.inj hh))
  | .ok _, .error _ => .isFalse (fun hh => Except.noConfusion hh)
  | .error _, .ok _ => .isFalse (fun hh => Except.noConfusion hh)

instance (b : Board) (n : Int) : Decidable (boardShape b n) := by
  unfold boardShape; infer_instance

instance (b : Board) (n : Int) : Decidable (validBoard b n) := by
  unfold validBoard; infer_instance

instance (p : Puzzle) : Decidable (validPuzzle p) := by
  unfold validPuzzle; infer_instance

/-- Legality of a direction from the current blank position, as the spec
states it (`UP` iff `row > 0`, etc.). -/
def moveLegal (p : Puzzle) (d : String) : Prop :=
  (d = "UP" ∧ 0 < p.blank_pos.1) ∨
  (d = "DOWN" ∧ p.blank_pos.1 < p.size - 1) ∨
  (d = "LEFT" ∧ 0 < p.blank_pos.2) ∨
  (d = "RIGHT" ∧ p.blank_pos.2 < p.size - 1)

instance (p : Puzzle) (d : String) : Decidable (moveLegal p d) := by
  unfold moveLegal; infer_instance

/-- The Manhattan contribution of the tile `t` sitting at `(i, j)`, as
`heuristic` computes it: `0` for the blank, otherwise the distance to the
looked-up goal position (`0` for a label absent from the table — that case
is excluded by the hypotheses wherever it matters). -/
def hterm (gp : GoalDict) (i j : Int) (t : Int) : Int :=
  if t = 0 then 0 else
    match dictGet gp t with
    | some (gr, gc) => |i - gr| + |j - gc|
    | none => 0

/-- The heuristic value as a clean double sum over the grid. -/
def Hsum (b : Board) (gp : GoalDict) (n : Nat) : Int :=
  ∑ i ∈ Finset.range n, ∑ j ∈ Finset.range n,
    hterm gp (i : Int) (j : Int) (cellN b i j)

/-- The exact inverse of a direction. -/
def inverseDir (d : String) : String :=
  if d = "UP" then "DOWN"
  else if d = "DOWN" then "UP"
  else if d = "LEFT" then "RIGHT"
  else if d = "RIGHT" then "LEFT"
  else d

/-! ### Basic lemmas about the Python primitives -/

theorem mem_pyRange {x n : Int} : x ∈ pyRange n ↔ 0 ≤ x ∧ x < n := by
  unfold pyRange
  simp only [List.mem_map, List.mem_range, Int.ofNat_eq_natCast]
  constructor
  · rintro ⟨k, hk, rfl⟩
    omega
  · rintro ⟨h0, h1⟩
    exact ⟨x.toNat, by omega, by omega⟩

theorem pyRange_nodup (n : Int) : (pyRange n).Nodup := by
  unfold pyRange
  refine (List.nodup_range n.toNat).map ?_
  intro a b h
  simp only [Int.ofNat_eq_natCast] at h
  omega

@[simp] theorem except_bind_ok {ε α β : Type} (a : α) (f : α → Except ε β) :
    (Except.ok a >>= f : Except ε β) = f a := rfl

@[simp] theorem except_bind_error {ε α β : Type} (e : ε) (f : α → Except ε β) :
    (Except.error e >>= f : Except ε β) = .error e := rfl

theorem pyGet_eq_ok {α : Type} (xs : List α) (i : Int) (d : α)
    (h0 : 0 ≤ i) (h1 : i < xs.length) : pyGet xs i = .ok (xs.getD i.toNat d) := by
  have hk : i.toNat < xs.length := by omega
  simp [pyGet, pyIdx, h0, h1, List.getElem?_eq_getElem hk,
    List.getD_eq_getElem?_getD]

theorem pySet_eq_ok {α : Type} (xs : List α) (i : Int) (v : α)
    (h0 : 0 ≤ i) (h1 : i < xs.length) : pySet xs i v = .ok (xs.set i.toNat v) := by
  simp [pySet, pyIdx, h0, h1]

theorem boardShape_row_mem {b : Board} {n : Int} (hs : boardShape b n)
    {i : Nat} (hi : i < b.length) : b.getD i [] ∈ b := by
  rw [List.getD_eq_getElem?_getD, List.getElem?_eq_getElem hi]
  exact List.getElem_mem hi

theorem boardShape_row_len {b : Board} {n : Int} (hs : boardShape b n)
    {i : Nat} (hi : i < b.length) : (b.getD i []).length = n.toNat :=
  hs.2.2 _ (boardShape_row_mem hs hi)

theorem pyGet2_eq_ok {b : Board} {n : Int} (hs : boardShape b n) (i j : Int)
    (hi0 : 0 ≤ i) (hi1 : i < n) (hj0 : 0 ≤ j) (hj1 : j < n) :
    pyGet2 b i j = .ok (cellN b i.toNat j.toNat) := by
  have hbl : b.length = n.toNat := hs.2.1
  have hlen : (i : Int) < b.length := by omega
  have h1 : pyGet b i = .ok (b.getD i.toNat []) := pyGet_eq_ok b i [] hi0 hlen
  have hrow : (b.getD i.toNat []).length = n.toNat :=
    boardShape_row_len hs (by omega)
  have h2 : pyGet (b.getD i.toNat []) j = .ok ((b.getD i.toNat []).getD j.toNat 0) :=
    pyGet_eq_ok _ j 0 hj0 (by rw [hrow]; omega)
  unfold pyGet2
  rw [h1, except_bind_ok, h2]
  rfl

theorem pySet2_eq_ok {b : Board} {n : Int} (hs : boardShape b n) (i j : Int) (v : Int)
    (hi0 : 0 ≤ i) (hi1 : i < n) (hj0 : 0 ≤ j) (hj1 : j < n) :
    pySet2 b i j v = .ok (updateCell b i.toNat j.toNat v) := by
  have hbl : b.length = n.toNat := hs.2.1
  have hlen : (i : Int) < b.length := by omega
  have h1 : pyGet b i = .ok (b.getD i.toNat []) := pyGet_eq_ok b i [] hi0 hlen
  have hrow : (b.getD i.toNat []).length = n.toNat :=
    boardShape_row_len hs (by omega)
  have h2 : pySet (b.getD i.toNat []) j v = .ok ((b.getD i.toNat []).set j.toNat v) :=
    pySet_eq_ok _ j v hj0 (by rw [hrow]; omega)
  have h3 : pySet b i ((b.getD i.toNat []).set j.toNat v) =
      .ok (b.set i.toNat ((b.getD i.toNat []).set j.toNat v)) :=
    pySet_eq_ok b i _ hi0 hlen
  unfold pySet2
  rw [h1, except_bind_ok, h2, except_bind_ok, h3]
  rfl

@[simp] theorem dictGet_insert {K V : Type} [DecidableEq K]
    (d : List (K × V)) (k k' : K) (v : V) :
    dictGet (dictInsert d k v) k' = if k' = k then some v else dictGet d k' := rfl

theorem length_updateCell (b : Board) (i j : Nat) (v : Int) :
    (updateCell b i j v).length = b.length := by
  simp [updateCell]

theorem boardShape_updateCell {b : Board} {n : Int} (hs : boardShape b n)
    (i j : Nat) (v : Int) : boardShape (updateCell b i j v) n := by
  refine ⟨hs.1, by simp [updateCell, hs.2.1], ?_⟩
  intro row hrow
  rcases Nat.lt_or_ge i b.length with hi | hi
  · rcases List.mem_or_eq_of_mem_set hrow with h | h
    · exact hs.2.2 _ h
    · subst h
      rw [List.length_set]; exact boardShape_row_len hs hi
  · rw [updateCell, List.set_eq_of_length_le (by omega)] at hrow
    exact hs.2.2 _ hrow

theorem getD_set_self {α : Type} (l : List α) (j : Nat) (v d : α) (hj : j < l.length) :
    (l.set j v).getD j d = v := by
  rw [List.getD_eq_getElem?_getD, List.getElem?_set_eq_of_lt _ hj]
  rfl

theorem getD_set_ne {α : Type} (l : List α) {j j' : Nat} (v d : α) (h : j ≠ j') :
    (l.set j v).getD j' d = l.getD j' d := by
  rw [List.getD_eq_getElem?_getD, List.getElem?_set_ne h, ← List.getD_eq_getElem?_getD]

theorem cellN_updateCell_same {b : Board} (i j : Nat) (v : Int)
    (hi : i < b.length) (hj : j < (b.getD i []).length) :
    cellN (updateCell b i j v) i j = v := by
  unfold cellN updateCell
  rw [getD_set_self _ _ _ _ hi]
  exact getD_set_self _ _ _ _ hj

theorem cellN_updateCell_ne {b : Board} (i j i' j' : Nat) (v : Int)
    (h : (i', j') ≠ (i, j)) :
    cellN (updateCell b i j v) i' j' = cellN b i' j' := by
  unfold cellN updateCell
  rcases Nat.decEq i' i with hne | heq
  · rw [getD_set_ne _ _ _ (fun hh => hne hh.symm)]
  · subst heq
    have hj' : j' ≠ j := fun hh => h (by rw [hh])
    rcases Nat.lt_or_ge i' b.length with hi | hi
    · rw [getD_set_self _ _ _ _ hi, getD_set_ne _ _ _ (fun hh => hj' hh.symm)]
    · rw [List.set_eq_of_length_le (by omega)]

/-! ### Characterization of `find_blank` -/

theorem find_blank_cols_some {b : Board} {r rr c : Int} {cols : List Int}
    (h : find_blank_cols b r cols = .ok (some (rr, c))) :
    rr = r ∧ c ∈ cols ∧ pyGet2 b r c = .ok 0 := by
  induction cols with
  | nil => simp [find_blank_cols] at h
  | cons c' cs ih =>
    rw [find_blank_cols] at h
    cases hg : pyGet2 b r c' with
    | error e => rw [hg] at h; simp at h
    | ok t =>
      rw [hg, except_bind_ok] at h
      by_cases ht : t = 0
      · subst ht
        rw [if_pos rfl] at h
        simp only [Except.ok.injEq, Option.some.injEq, Prod.mk.injEq] at h
        rcases h with ⟨h1, h2⟩
        subst h1; subst h2
        exact ⟨rfl, List.mem_cons_self _ _, hg⟩
      · rw [if_neg ht] at h
        rcases ih h with ⟨h1, h2, h3⟩
        exact ⟨h1, List.mem_cons_of_mem _ h2, h3⟩

theorem find_blank_cols_none {b : Board} {r : Int} {cols : List Int}
    (h : find_blank_cols b r cols = .ok none) :
    ∀ c ∈ cols, ∃ t, pyGet2 b r c = .ok t ∧ t ≠ 0 := by
  induction cols with
  | nil => intro c hc; cases hc
  | cons c' cs ih =>
    intro c hc
    rw [find_blank_cols] at h
    cases hg : pyGet2 b r c' with
    | error e => rw [hg] at h; simp at h
    | ok t =>
      rw [hg, except_bind_ok] at h
      by_cases ht : t = 0
      · subst ht; rw [if_pos rfl] at h; exact absurd h (by simp)
      · rw [if_neg ht] at h
        rcases List.mem_cons.1 hc with hc | hc
        · subst hc; exact ⟨t, hg, ht⟩
        · exact ih h c hc

theorem find_blank_cols_total {b : Board} {r : Int} {cols : List Int}
    (hr : ∀ c ∈ cols, ∃ t, pyGet2 b r c = .ok t) :
    ∃ o, find_blank_cols b r cols = .ok o := by
  induction cols with
  | nil => exact ⟨none, rfl⟩
  | cons c' cs ih =>
    rcases hr c' (List.mem_cons_self _ _) with ⟨t, hg⟩
    rw [find_blank_cols, hg, except_bind_ok]
    by_cases ht : t = 0
    · subst ht; rw [if_pos rfl]; exact ⟨some (r, c'), rfl⟩
    · rw [if_neg ht]
      exact ih (fun c hc => hr c (List.mem_cons_of_mem _ hc))

theorem find_blank_rows_some {b : Board} {n r c : Int} {rows : List Int}
    (h : find_blank_rows b n rows = .ok (some (r, c))) :
    r ∈ rows ∧ c ∈ pyRange n ∧ pyGet2 b r c = .ok 0 := by
  induction rows with
  | nil => simp [find_blank_rows] at h
  | cons r' rs ih =>
    rw [find_blank_rows] at h
    cases hg : find_blank_cols b r' (pyRange n) with
    | error e => rw [hg] at h; simp at h
    | ok o =>
      rw [hg, except_bind_ok] at h
      cases o with
      | some p =>
        cases h
        rcases find_blank_cols_some hg with ⟨h1, h2, h3⟩
        subst h1
        exact ⟨List.mem_cons_self _ _, h2, h3⟩
      | none =>
        rcases ih h with ⟨h1, h2, h3⟩
        exact ⟨List.mem_cons_of_mem _ h1, h2, h3⟩

theorem find_blank_rows_none {b : Board} {n : Int} {rows : List Int}
    (h : find_blank_rows b n rows = .ok none) :
    ∀ r ∈ rows, ∀ c ∈ pyRange n, ∃ t, pyGet2 b r c = .ok t ∧ t ≠ 0 := by
  induction rows with
  | nil => intro r hr; cases hr
  | cons r' rs ih =>
    intro r hr
    rw [find_blank_rows] at h
    cases hg : find_blank_cols b r' (pyRange n) with
    | error e => rw [hg] at h; simp at h
    | ok o =>
      rw [hg, except_bind_ok] at h
      cases o with
      | some p => cases h
      | none =>
        rcases List.mem_cons.1 hr with hr | hr
        · subst hr; exact find_blank_cols_none hg
        · exact ih h r hr

theorem find_blank_rows_total {b : Board} {n : Int} {rows : List Int}
    (hr : ∀ r ∈ rows, ∀ c ∈ pyRange n, ∃ t, pyGet2 b r c = .ok t) :
    ∃ o, find_blank_rows b n rows = .ok o := by
  induction rows with
  | nil => exact ⟨none, rfl⟩
  | cons r' rs ih =>
    rcases find_blank_cols_total (hr r' (List.mem_cons_self _ _)) with ⟨o, hg⟩
    rw [find_blank_rows, hg, except_bind_ok]
    cases o with
    | some p => exact ⟨some p, rfl⟩
    | none => exact ih (fun r h => hr r (List.mem_cons_of_mem _ h))

/-- Every cell of an `n × n` board is readable. -/
theorem shape_reads_ok {b : Board} {n : Int} (hs : boardShape b n) :
    ∀ r ∈ pyRange n, ∀ c ∈ pyRange n, ∃ t, pyGet2 b r c = .ok t := by
  intro r hr c hc
  rw [mem_pyRange] at hr hc
  exact ⟨_, pyGet2_eq_ok hs r c hr.1 hr.2 hc.1 hc.2⟩

/-- `_find_blank` on a success returns an in-bounds cell holding `0`. -/
theorem find_blank_ok_cell {b : Board} {n : Int} {r c : Int} (hs : boardShape b n)
    (h : find_blank b n = .ok (r, c)) :
    0 ≤ r ∧ r < n ∧ 0 ≤ c ∧ c < n ∧ cellN b r.toNat c.toNat = 0 := by
  unfold find_blank at h
  cases hg : find_blank_rows b n (pyRange n) with
  | error e => rw [hg] at h; simp at h
  | ok o =>
    rw [hg, except_bind_ok] at h
    cases o with
    | none => cases h
    | some p =>
      cases h
      rcases find_blank_rows_some hg with ⟨h1, h2, h3⟩
      rw [mem_pyRange] at h1 h2
      have := pyGet2_eq_ok hs r c h1.1 h1.2 h2.1 h2.2
      rw [this] at h3
      exact ⟨h1.1, h1.2, h2.1, h2.2, Except.ok.inj h3⟩

/-- `_find_blank` succeeds as soon as some cell of the scanned region is `0`. -/
theorem find_blank_exists_zero {b : Board} {n : Int} (hs : boardShape b n)
    (hz : ∃ i j : Nat, i < n.toNat ∧ j < n.toNat ∧ cellN b i j = 0) :
    ∃ rc, find_blank b n = .ok rc := by
  rcases find_blank_rows_total (shape_reads_ok hs) with ⟨o, hg⟩
  cases o with
  | some p => exact ⟨p, by unfold find_blank; rw [hg, except_bind_ok]⟩
  | none =>
    exfalso
    rcases hz with ⟨i, j, hi, hj, hij⟩
    have hmemr : (i : Int) ∈ pyRange n := mem_pyRange.2 ⟨by omega, by omega⟩
    have hmemc : (j : Int) ∈ pyRange n := mem_pyRange.2 ⟨by omega, by omega⟩
    rcases find_blank_rows_none hg _ hmemr _ hmemc with ⟨t, hok, ht⟩
    have := pyGet2_eq_ok hs (i : Int) (j : Int) (by omega) (by omega) (by omega) (by omega)
    rw [this] at hok
    cases hok
    simp only [Int.toNat_ofNat] at ht
    exact ht hij

/-- When no cell of the scanned region is `0`, `_find_blank` raises
`ValueError`. -/
theorem find_blank_no_zero {b : Board} {n : Int} (hs : boardShape b n)
    (hz : ∀ i j : Nat, i < n.toNat → j < n.toNat → cellN b i j ≠ 0) :
    find_blank b n = .error .valueError := by
  rcases find_blank_rows_total (shape_reads_ok hs) with ⟨o, hg⟩
  cases o with
  | some p =>
    exfalso
    rcases p with ⟨r, c⟩
    have hok : find_blank b n = .ok (r, c) := by unfold find_blank; rw [hg, except_bind_ok]
    rcases find_blank_ok_cell hs hok with ⟨h1, h2, h3, h4, h5⟩
    exact hz r.toNat c.toNat (by omega) (by omega) h5
  | none => unfold find_blank; rw [hg, except_bind_ok]

/-- With a unique `0` cell, `_find_blank` returns exactly that cell. -/
theorem find_blank_unique {b : Board} {n : Int} (hs : boardShape b n)
    {r0 c0 : Int} (h00 : 0 ≤ r0) (h01 : r0 < n) (h10 : 0 ≤ c0) (h11 : c0 < n)
    (hz : cellN b r0.toNat c0.toNat = 0)
    (huniq : ∀ i j : Nat, i < n.toNat → j < n.toNat → cellN b i j = 0 →
      i = r0.toNat ∧ j = c0.toNat) :
    find_blank b n = .ok (r0, c0) := by
  rcases find_blank_exists_zero hs ⟨r0.toNat, c0.toNat, by omega, by omega, hz⟩ with ⟨⟨r, c⟩, h⟩
  rcases find_blank_ok_cell hs h with ⟨h1, h2, h3, h4, h5⟩
  rcases huniq r.toNat c.toNat (by omega) (by omega) h5 with ⟨e1, e2⟩
  have : r = r0 ∧ c = c0 := by omega
  rw [this.1, this.2] at h
  exact h

/-! ### `get_possible_moves` and construction lemmas -/

theorem gpm_filter (p : Puzzle) :
    get_possible_moves p =
      (["UP", "DOWN", "LEFT", "RIGHT"]).filter (fun d => decide (moveLegal p d)) := by
  unfold get_possible_moves moveLegal
  by_cases h1 : 0 < p.blank_pos.1 <;> by_cases h2 : p.blank_pos.1 < p.size - 1 <;>
    by_cases h3 : 0 < p.blank_pos.2 <;> by_cases h4 : p.blank_pos.2 < p.size - 1 <;>
    simp [h1, h2, h3, h4, List.filter]

theorem length_gpm (p : Puzzle) :
    (get_possible_moves p).length =
      (if 0 < p.blank_pos.1 then 1 else 0) +
      (if p.blank_pos.1 < p.size - 1 then 1 else 0) +
      (if 0 < p.blank_pos.2 then 1 else 0) +
      (if p.blank_pos.2 < p.size - 1 then 1 else 0) := by
  unfold get_possible_moves
  by_cases h1 : 0 < p.blank_pos.1 <;> by_cases h2 : p.blank_pos.1 < p.size - 1 <;>
    by_cases h3 : 0 < p.blank_pos.2 <;> by_cases h4 : p.blank_pos.2 < p.size - 1 <;>
    simp [h1, h2, h3, h4]

theorem mem_gpm (p : Puzzle) (d : String) :
    d ∈ get_possible_moves p ↔ moveLegal p d := by
  rw [gpm_filter]
  rw [List.mem_filter]
  unfold moveLegal
  constructor
  · rintro ⟨_, h⟩; exact of_decide_eq_true h
  · intro h
    refine ⟨?_, decide_eq_true h⟩
    rcases h with ⟨rfl, _⟩ | ⟨rfl, _⟩ | ⟨rfl, _⟩ | ⟨rfl, _⟩ <;> decide

theorem valid_blank_bounds {p : Puzzle} (hv : validPuzzle p) :
    0 ≤ p.blank_pos.1 ∧ p.blank_pos.1 < p.size ∧ 0 ≤ p.blank_pos.2 ∧
      p.blank_pos.2 < p.size ∧
      cellN p.board p.blank_pos.1.toNat p.blank_pos.2.toNat = 0 := by
  have hs : boardShape p.board p.size := hv.1.2.1
  have h := hv.2
  rcases hbp : p.blank_pos with ⟨r, c⟩
  rw [hbp] at h
  have := find_blank_ok_cell hs h
  simpa [hbp] using this

theorem find_blank_eq_of_rows_some {b : Board} {n : Int} {rc : Int × Int}
    (hg : find_blank_rows b n (pyRange n) = .ok (some rc)) :
    find_blank b n = .ok rc := by
  unfold find_blank; rw [hg, except_bind_ok]

theorem find_blank_eq_of_rows_none {b : Board} {n : Int}
    (hg : find_blank_rows b n (pyRange n) = .ok none) :
    find_blank b n = .error .valueError := by
  unfold find_blank; rw [hg, except_bind_ok]

theorem mkPuzzle_ok {b : Board} {n : Int} {p : Puzzle} :
    mkPuzzle b n = .ok p ↔
      find_blank b n = .ok p.blank_pos ∧ p.board = b ∧ p.size = n := by
  unfold mkPuzzle
  cases h : find_blank b n with
  | error e =>
    simp only [except_bind_error]
    constructor
    · intro hh; exact absurd hh (by simp)
    · rintro ⟨hh, _, _⟩; exact absurd hh (by simp)
  | ok bp =>
    simp only [except_bind_ok]
    constructor
    · intro hh
      have he := Except.ok.inj hh
      subst he
      exact ⟨rfl, rfl, rfl⟩
    · rintro ⟨h1, h2, h3⟩
      have hbp := Except.ok.inj h1
      cases p with
      | mk pb ps pbp =>
        simp only at h2 h3 hbp
        subst h2; subst h3; subst hbp
        rfl

theorem mkPuzzle_of_find {b : Board} {n : Int} {rc : Int × Int}
    (h : find_blank b n = .ok rc) : mkPuzzle b n = .ok ⟨b, n, rc⟩ := by
  unfold mkPuzzle; rw [h, except_bind_ok]

/-! ### Update algebra and the flattened board -/

theorem set_getD_self {α : Type} : ∀ (l : List α) (j : Nat) (d : α),
    j < l.length → l.set j (l.getD j d) = l
  | [], _, _, h => by cases h
  | a :: l, 0, d, _ => rfl
  | a :: l, j + 1, d, h => by
    show a :: l.set j (l.getD j d) = a :: l
    rw [set_getD_self l j d (by simpa using h)]

theorem updateCell_collapse (X : Board) (i j : Nat) (v w : Int) :
    updateCell (updateCell X i j v) i j w = updateCell X i j w := by
  unfold updateCell
  rcases Nat.lt_or_ge i X.length with hi | hi
  · rw [getD_set_self _ _ _ _ hi, List.set_set, List.set_set]
  · have h1 : X.set i ((X.getD i []).set j v) = X :=
      List.set_eq_of_length_le (by omega)
    rw [h1]

theorem updateCell_self {X : Board} {i j : Nat} (hi : i < X.length)
    (hj : j < (X.getD i []).length) :
    updateCell X i j (cellN X i j) = X := by
  unfold updateCell cellN
  rw [set_getD_self _ _ _ hj, set_getD_self _ _ _ hi]

/-- Row lengths of a shaped board, as a `getD` statement. -/
theorem shape_getD_len {b : Board} {n : Int} (hs : boardShape b n) {i : Nat}
    (hi : i < b.length) : (b.getD i []).length = n.toNat :=
  boardShape_row_len hs hi

theorem flatten_length {b : Board} {n : Int} (hs : boardShape b n) :
    b.flatten.length = n.toNat * n.toNat := by
  rw [List.length_flatten]
  have : ∀ l ∈ b.map List.length, l = n.toNat := by
    intro l hl
    rcases List.mem_map.1 hl with ⟨row, hrow, rfl⟩
    exact hs.2.2 _ hrow
  rw [List.eq_replicate_of_mem this]
  simp [hs.2.1, Nat.mul_comm]

theorem flatten_getD {n : Nat} : ∀ (b : Board) (i j : Nat),
    (∀ row ∈ b, row.length = n) → i < b.length → j < n →
    b.flatten.getD (i * n + j) 0 = cellN b i j
  | [], i, j, _, hi, _ => by cases hi
  | row :: rest, 0, j, hlen, _, hj => by
    have hrow : row.length = n := hlen row (List.mem_cons_self _ _)
    simp only [List.flatten_cons, Nat.zero_mul, Nat.zero_add]
    rw [List.getD_append _ _ _ _ (by omega)]
    rfl
  | row :: rest, i + 1, j, hlen, hi, hj => by
    have hrow : row.length = n := hlen row (List.mem_cons_self _ _)
    simp only [List.flatten_cons]
    rw [List.getD_append_right _ _ _ _ (by rw [hrow, Nat.succ_mul]; omega)]
    have harith : (i + 1) * n + j - row.length = i * n + j := by
      rw [hrow]; rw [Nat.succ_mul]; omega
    rw [harith]
    rw [flatten_getD rest i j (fun r hr => hlen r (List.mem_cons_of_mem _ hr))
      (by simpa using hi) hj]
    rfl

/-- The flattened board of a valid puzzle has no duplicate labels. -/
theorem valid_flatten_nodup {b : Board} {n : Int} (hvb : validBoard b n) :
    b.flatten.Nodup := by
  refine hvb.2.2.nodup_iff.2 ?_
  refine (List.nodup_range _).map ?_
  intro a b h
  simp only [Int.ofNat_eq_natCast] at h
  omega

/-- Distinct cells of a valid board hold distinct labels. -/
theorem valid_cell_inj {b : Board} {n : Int} (hvb : validBoard b n)
    {i j i' j' : Nat} (hi : i < n.toNat) (hj : j < n.toNat)
    (hi' : i' < n.toNat) (hj' : j' < n.toNat)
    (he : cellN b i j = cellN b i' j') : i = i' ∧ j = j' := by
  have hs : boardShape b n := hvb.2.1
  have hbl : b.length = n.toNat := hs.2.1
  have hnd := valid_flatten_nodup hvb
  have hlen := flatten_length hs
  have hfi : i * n.toNat + j < b.flatten.length := by
    rw [hlen]
    calc i * n.toNat + j < i * n.toNat + n.toNat := by omega
    _ = (i + 1) * n.toNat := by rw [Nat.succ_mul]
    _ ≤ n.toNat * n.toNat := Nat.mul_le_mul_right _ (by omega)
  have hfi' : i' * n.toNat + j' < b.flatten.length := by
    rw [hlen]
    calc i' * n.toNat + j' < i' * n.toNat + n.toNat := by omega
    _ = (i' + 1) * n.toNat := by rw [Nat.succ_mul]
    _ ≤ n.toNat * n.toNat := Nat.mul_le_mul_right _ (by omega)
  have h1 := flatten_getD b i j (fun r hr => hs.2.2 r hr) (by omega) hj
  have h2 := flatten_getD b i' j' (fun r hr => hs.2.2 r hr) (by omega) hj'
  have hgd : b.flatten.getD (i * n.toNat + j) 0 =
      b.flatten.getD (i' * n.toNat + j') 0 := by
    rw [h1, h2, he]
  rw [List.getD_eq_getElem _ _ hfi, List.getD_eq_getElem _ _ hfi'] at hgd
  have hidx : i * n.toNat + j = i' * n.toNat + j' :=
    (@List.Nodup.getElem_inj_iff _ _ hnd _ hfi _ hfi').1 hgd
  have hii : i = i' := by
    by_contra hne
    rcases Nat.lt_or_ge i i' with hlt | hge
    · have hlt2 : i * n.toNat + j < i' * n.toNat + j' := by
        calc i * n.toNat + j < (i + 1) * n.toNat := by rw [Nat.succ_mul]; omega
        _ ≤ i' * n.toNat := Nat.mul_le_mul_right _ (by omega)
        _ ≤ i' * n.toNat + j' := by omega
      omega
    · have hgt : i' < i := by omega
      have hlt2 : i' * n.toNat + j' < i * n.toNat + j := by
        calc i' * n.toNat + j' < (i' + 1) * n.toNat := by rw [Nat.succ_mul]; omega
        _ ≤ i * n.toNat := Nat.mul_le_mul_right _ (by omega)
        _ ≤ i * n.toNat + j := by omega
      omega
  subst hii
  exact ⟨rfl, by omega⟩

/-- Every cell value of a valid board is a label in `[0, n²)`. -/
theorem valid_cell_range {b : Board} {n : Int} (hvb : validBoard b n)
    {i j : Nat} (hi : i < n.toNat) (hj : j < n.toNat) :
    0 ≤ cellN b i j ∧ cellN b i j < n * n := by
  have hs : boardShape b n := hvb.2.1
  have hbl : b.length = n.toNat := hs.2.1
  have hrow : (b.getD i []).length = n.toNat :=
    boardShape_row_len hs (by omega)
  have hjj : j < (b.getD i []).length := by rw [hrow]; omega
  have h1 : cellN b i j ∈ b.getD i [] := by
    unfold cellN
    rw [List.getD_eq_getElem _ _ hjj]
    exact List.getElem_mem hjj
  have hmem : cellN b i j ∈ b.flatten :=
    List.mem_flatten.2 ⟨b.getD i [], boardShape_row_mem hs (by omega), h1⟩
  have hmem2 := hvb.2.2.mem_iff.1 hmem
  rcases List.mem_map.1 hmem2 with ⟨k, hk, hke⟩
  rw [List.mem_range] at hk
  simp only [Int.ofNat_eq_natCast] at hke
  have hnn : 0 < n := hvb.1
  have hcast : (n.toNat : Int) * (n.toNat : Int) = n * n := by
    rw [Int.toNat_of_nonneg (by omega)]
  constructor
  · omega
  · omega

/-! ### `move_blank` on legal moves -/

theorem moveLegal_target {p : Puzzle} {d : String} (hd : moveLegal p d)
    (hb0 : 0 ≤ p.blank_pos.1) (hb1 : p.blank_pos.1 < p.size)
    (hb2 : 0 ≤ p.blank_pos.2) (hb3 : p.blank_pos.2 < p.size) :
    ∃ tr tc : Int, moveTarget p.blank_pos d = some (tr, tc) ∧
      0 ≤ tr ∧ tr < p.size ∧ 0 ≤ tc ∧ tc < p.size ∧
      ((tr = p.blank_pos.1 - 1 ∧ tc = p.blank_pos.2) ∨
       (tr = p.blank_pos.1 + 1 ∧ tc = p.blank_pos.2) ∨
       (tr = p.blank_pos.1 ∧ tc = p.blank_pos.2 - 1) ∨
       (tr = p.blank_pos.1 ∧ tc = p.blank_pos.2 + 1)) ∧
      moveTarget (tr, tc) (inverseDir d) = some (p.blank_pos.1, p.blank_pos.2) := by
  rcases hd with ⟨rfl, h⟩ | ⟨rfl, h⟩ | ⟨rfl, h⟩ | ⟨rfl, h⟩
  · refine ⟨p.blank_pos.1 - 1, p.blank_pos.2, ?_, by omega, by omega, hb2, hb3,
      Or.inl ⟨rfl, rfl⟩, ?_⟩
    · unfold moveTarget; simp
    · unfold inverseDir moveTarget; simp
  · refine ⟨p.blank_pos.1 + 1, p.blank_pos.2, ?_, by omega, by omega, hb2, hb3,
      Or.inr (Or.inl ⟨rfl, rfl⟩), ?_⟩
    · unfold moveTarget; simp
    · unfold inverseDir moveTarget; simp
  · refine ⟨p.blank_pos.1, p.blank_pos.2 - 1, ?_, hb0, hb1, by omega, by omega,
      Or.inr (Or.inr (Or.inl ⟨rfl, rfl⟩)), ?_⟩
    · unfold moveTarget; simp
    · unfold inverseDir moveTarget; simp
  · refine ⟨p.blank_pos.1, p.blank_pos.2 + 1, ?_, hb0, hb1, by omega, by omega,
      Or.inr (Or.inr (Or.inr ⟨rfl, rfl⟩)), ?_⟩
    · unfold moveTarget; simp
    · unfold inverseDir moveTarget; simp

theorem move_blank_ok {p : Puzzle} {d : String} {tr tc : Int}
    (hs : boardShape p.board p.size)
    (ht : moveTarget p.blank_pos d = some (tr, tc))
    (hb0 : 0 ≤ p.blank_pos.1) (hb1 : p.blank_pos.1 < p.size)
    (hb2 : 0 ≤ p.blank_pos.2) (hb3 : p.blank_pos.2 < p.size)
    (ht0 : 0 ≤ tr) (ht1 : tr < p.size) (ht2 : 0 ≤ tc) (ht3 : tc < p.size) :
    move_blank p d =
      mkPuzzle
        (updateCell (updateCell p.board p.blank_pos.1.toNat p.blank_pos.2.toNat
            (cellN p.board tr.toNat tc.toNat))
          tr.toNat tc.toNat
          (cellN p.board p.blank_pos.1.toNat p.blank_pos.2.toNat))
        p.size := by
  unfold move_blank
  rw [ht]
  show (do
    let a ← pyGet2 p.board tr tc
    let b ← pyGet2 p.board p.blank_pos.1 p.blank_pos.2
    let b1 ← pySet2 p.board p.blank_pos.1 p.blank_pos.2 a
    let b2 ← pySet2 b1 tr tc b
    mkPuzzle b2 p.size) = _
  rw [pyGet2_eq_ok hs tr tc ht0 ht1 ht2 ht3, except_bind_ok]
  rw [pyGet2_eq_ok hs p.blank_pos.1 p.blank_pos.2 hb0 hb1 hb2 hb3, except_bind_ok]
  rw [pySet2_eq_ok hs p.blank_pos.1 p.blank_pos.2 _ hb0 hb1 hb2 hb3, except_bind_ok]
  have hs2 := boardShape_updateCell hs p.blank_pos.1.toNat p.blank_pos.2.toNat
    (cellN p.board tr.toNat tc.toNat)
  rw [pySet2_eq_ok hs2 tr tc _ ht0 ht1 ht2 ht3, except_bind_ok]

theorem move_blank_spec {p : Puzzle} {d : String} (hv : validPuzzle p)
    (hd : moveLegal p d) :
    ∃ tr tc : Int,
      moveTarget p.blank_pos d = some (tr, tc) ∧
      0 ≤ tr ∧ tr < p.size ∧ 0 ≤ tc ∧ tc < p.size ∧
      ((tr = p.blank_pos.1 - 1 ∧ tc = p.blank_pos.2) ∨
       (tr = p.blank_pos.1 + 1 ∧ tc = p.blank_pos.2) ∨
       (tr = p.blank_pos.1 ∧ tc = p.blank_pos.2 - 1) ∨
       (tr = p.blank_pos.1 ∧ tc = p.blank_pos.2 + 1)) ∧
      cellN p.board tr.toNat tc.toNat ≠ 0 ∧
      move_blank p d = .ok
        ⟨updateCell (updateCell p.board p.blank_pos.1.toNat p.blank_pos.2.toNat
            (cellN p.board tr.toNat tc.toNat))
          tr.toNat tc.toNat 0,
         p.size, (tr, tc)⟩ ∧
      moveTarget (tr, tc) (inverseDir d) = some (p.blank_pos.1, p.blank_pos.2) := by
  have hs : boardShape p.board p.size := hv.1.2.1
  have hbl : p.board.length = p.size.toNat := hs.2.1
  rcases valid_blank_bounds hv with ⟨hb0, hb1, hb2, hb3, hz⟩
  rcases moveLegal_target hd hb0 hb1 hb2 hb3 with
    ⟨tr, tc, ht, ht0, ht1, ht2, ht3, hadj, hinv⟩
  have hne : ¬ (tr.toNat = p.blank_pos.1.toNat ∧ tc.toNat = p.blank_pos.2.toNat) := by
    rintro ⟨e1, e2⟩
    rcases hadj with ⟨ha, hb⟩ | ⟨ha, hb⟩ | ⟨ha, hb⟩ | ⟨ha, hb⟩ <;> omega
  set t := cellN p.board tr.toNat tc.toNat with htdef
  have htnz : t ≠ 0 := by
    intro h0
    have := @valid_cell_inj p.board p.size hv.1 tr.toNat tc.toNat
      p.blank_pos.1.toNat p.blank_pos.2.toNat
      (by omega) (by omega) (by omega) (by omega) (by rw [← htdef, h0, hz])
    exact hne this
  have hmb := move_blank_ok hs ht hb0 hb1 hb2 hb3 ht0 ht1 ht2 ht3
  rw [hz] at hmb
  set B2 := updateCell (updateCell p.board p.blank_pos.1.toNat p.blank_pos.2.toNat t)
    tr.toNat tc.toNat 0 with hB2
  have hs1 := boardShape_updateCell hs p.blank_pos.1.toNat p.blank_pos.2.toNat t
  have hs2 : boardShape B2 p.size := boardShape_updateCell hs1 tr.toNat tc.toNat 0
  have hlen1 : (updateCell p.board p.blank_pos.1.toNat p.blank_pos.2.toNat t).length =
      p.size.toNat := hs1.2.1
  have hrow1 : ((updateCell p.board p.blank_pos.1.toNat p.blank_pos.2.toNat t).getD
      tr.toNat []).length = p.size.toNat :=
    boardShape_row_len hs1 (by omega)
  have hzero2 : cellN B2 tr.toNat tc.toNat = 0 := by
    rw [hB2]
    exact cellN_updateCell_same tr.toNat tc.toNat 0 (by omega) (by omega)
  have huniq2 : ∀ i j : Nat, i < p.size.toNat → j < p.size.toNat →
      cellN B2 i j = 0 → i = tr.toNat ∧ j = tc.toNat := by
    intro i j hi hj hzz
    by_cases hij : (i, j) = (tr.toNat, tc.toNat)
    · exact ⟨congrArg Prod.fst hij, congrArg Prod.snd hij⟩
    · rw [hB2, cellN_updateCell_ne _ _ _ _ _ hij] at hzz
      by_cases hij2 : (i, j) = (p.blank_pos.1.toNat, p.blank_pos.2.toNat)
      · have hii : i = p.blank_pos.1.toNat := congrArg Prod.fst hij2
        have hjj : j = p.blank_pos.2.toNat := congrArg Prod.snd hij2
        subst hii; subst hjj
        have hrowb : (p.board.getD p.blank_pos.1.toNat []).length = p.size.toNat :=
          boardShape_row_len hs (by omega)
        rw [cellN_updateCell_same _ _ _ (by omega) (by omega)] at hzz
        exact absurd hzz htnz
      · rw [cellN_updateCell_ne _ _ _ _ _ hij2] at hzz
        have := @valid_cell_inj p.board p.size hv.1 i j
          p.blank_pos.1.toNat p.blank_pos.2.toNat
          hi hj (by omega) (by omega) (by rw [hzz, hz])
        exact absurd (Prod.ext this.1 this.2) hij2
  have hfb : find_blank B2 p.size = .ok (tr, tc) :=
    find_blank_unique hs2 ht0 ht1 ht2 ht3 hzero2 huniq2
  exact ⟨tr, tc, ht, ht0, ht1, ht2, ht3, hadj, htnz,
    by rw [hmb, ← hB2]; exact mkPuzzle_of_find hfb, hinv⟩


/-! ### The heuristic as a clean sum, and the goal-position table -/

theorem heuristic_cols_ok {b : Board} {n : Int} (hs : boardShape b n) (gp : GoalDict)
    {r : Int} (hr0 : 0 ≤ r) (hr1 : r < n)
    (hcov : ∀ j : Int, 0 ≤ j → j < n → cellN b r.toNat j.toNat ≠ 0 →
      (dictGet gp (cellN b r.toNat j.toNat)).isSome) :
    ∀ (cols : List Int) (acc : Int), (∀ c ∈ cols, 0 ≤ c ∧ c < n) →
      heuristic_cols b gp r cols acc =
        .ok (acc + (cols.map (fun c => hterm gp r c (cellN b r.toNat c.toNat))).sum) := by
  intro cols
  induction cols with
  | nil => intro acc _; simp [heuristic_cols]
  | cons c cs ih =>
    intro acc hmem
    rcases hmem c (List.mem_cons_self _ _) with ⟨hc0, hc1⟩
    rw [heuristic_cols, pyGet2_eq_ok hs r c hr0 hr1 hc0 hc1, except_bind_ok]
    by_cases hz : cellN b r.toNat c.toNat = 0
    · rw [if_neg (not_not_intro hz)]
      rw [ih acc (fun x hx => hmem x (List.mem_cons_of_mem _ hx))]
      have h0 : hterm gp r c (cellN b r.toNat c.toNat) = 0 := by
        unfold hterm; rw [if_pos hz]
      simp [h0]
    · rw [if_pos hz]
      have hsome := hcov c hc0 hc1 hz
      cases hdg : dictGet gp (cellN b r.toNat c.toNat) with
      | none => rw [hdg] at hsome; cases hsome
      | some pr =>
        rcases pr with ⟨gr, gc⟩
        simp only [hdg]
        rw [ih (acc + (|r - gr| + |c - gc|))
          (fun x hx => hmem x (List.mem_cons_of_mem _ hx))]
        have hterm_eq : hterm gp r c (cellN b r.toNat c.toNat) = |r - gr| + |c - gc| := by
          unfold hterm; rw [if_neg hz, hdg]
        simp only [List.map_cons, List.sum_cons, hterm_eq]
        congr 1
        ring

theorem heuristic_rows_ok {b : Board} {n : Int} (hs : boardShape b n) (gp : GoalDict)
    (hcov : ∀ i j : Int, 0 ≤ i → i < n → 0 ≤ j → j < n →
      cellN b i.toNat j.toNat ≠ 0 →
      (dictGet gp (cellN b i.toNat j.toNat)).isSome) :
    ∀ (rows : List Int) (acc : Int), (∀ r ∈ rows, 0 ≤ r ∧ r < n) →
      heuristic_rows b gp n rows acc =
        .ok (acc + (rows.map (fun r =>
          ((pyRange n).map (fun c => hterm gp r c (cellN b r.toNat c.toNat))).sum)).sum) := by
  intro rows
  induction rows with
  | nil => intro acc _; simp [heuristic_rows]
  | cons r rs ih =>
    intro acc hmem
    rcases hmem r (List.mem_cons_self _ _) with ⟨hr0, hr1⟩
    rw [heuristic_rows]
    rw [heuristic_cols_ok hs gp hr0 hr1
      (fun j hj0 hj1 => hcov r j hr0 hr1 hj0 hj1)
      (pyRange n) acc (fun c hc => (mem_pyRange.1 hc))]
    rw [except_bind_ok]
    rw [ih _ (fun x hx => hmem x (List.mem_cons_of_mem _ hx))]
    simp only [List.map_cons, List.sum_cons]
    congr 1
    ring

theorem list_range_sum (n : Nat) (f : Nat → Int) :
    ((List.range n).map f).sum = ∑ i ∈ Finset.range n, f i := by
  induction n with
  | zero => simp
  | succ m ih =>
    rw [List.range_succ, List.map_append, List.sum_append, Finset.sum_range_succ, ih]
    simp

theorem heuristic_eq {p : Puzzle} {n : Int} (gp : GoalDict)
    (hs : boardShape p.board n) (hsz : p.size = n)
    (hcov : ∀ i j : Nat, i < n.toNat → j < n.toNat →
      cellN p.board i j ≠ 0 → (dictGet gp (cellN p.board i j)).isSome) :
    heuristic p gp = .ok (Hsum p.board gp n.toNat) := by
  unfold heuristic
  rw [hsz]
  have hcov' : ∀ i j : Int, 0 ≤ i → i < n → 0 ≤ j → j < n →
      cellN p.board i.toNat j.toNat ≠ 0 →
      (dictGet gp (cellN p.board i.toNat j.toNat)).isSome := by
    intro i j hi0 hi1 hj0 hj1
    exact hcov i.toNat j.toNat (by omega) (by omega)
  rw [heuristic_rows_ok hs gp hcov' (pyRange n) 0 (fun r hr => mem_pyRange.1 hr)]
  congr 1
  rw [Int.zero_add]
  unfold pyRange Hsum
  rw [List.map_map, list_range_sum]
  apply Finset.sum_congr rfl
  intro i hi
  simp only [Function.comp_apply]
  rw [List.map_map, list_range_sum]
  apply Finset.sum_congr rfl
  intro j hj
  simp only [Function.comp_apply, Int.ofNat_eq_natCast, Int.toNat_natCast]

theorem bgp_cols_total {gb : Board} {i : Int} :
    ∀ (cols : List Int) (d : GoalDict),
      (∀ j ∈ cols, ∃ v, pyGet2 gb i j = .ok v) →
      ∃ d', bgp_cols gb i cols d = .ok d'
  | [], d, _ => ⟨d, rfl⟩
  | j :: js, d, h => by
    rcases h j (List.mem_cons_self _ _) with ⟨v, hv⟩
    rw [bgp_cols, hv, except_bind_ok]
    exact bgp_cols_total js _ (fun x hx => h x (List.mem_cons_of_mem _ hx))

theorem bgp_cols_frame {gb : Board} {i : Int} :
    ∀ (cols : List Int) (d d' : GoalDict) (t : Int),
      bgp_cols gb i cols d = .ok d' →
      (∀ j ∈ cols, ∀ v, pyGet2 gb i j = .ok v → v ≠ t) →
      dictGet d' t = dictGet d t := by
  intro cols
  induction cols with
  | nil => intro d d' t h _; cases h; rfl
  | cons j js ih =>
    intro d d' t h hne
    rw [bgp_cols] at h
    cases hv : pyGet2 gb i j with
    | error e => rw [hv] at h; simp at h
    | ok v =>
      rw [hv, except_bind_ok] at h
      have := ih _ _ _ h (fun x hx => hne x (List.mem_cons_of_mem _ hx))
      rw [this, dictGet_insert,
        if_neg (fun hh => hne j (List.mem_cons_self _ _) v hv hh.symm)]

theorem bgp_cols_hit {gb : Board} {i : Int} :
    ∀ (cols : List Int) (d d' : GoalDict) (t : Int) (j0 : Int),
      bgp_cols gb i cols d = .ok d' → cols.Nodup →
      j0 ∈ cols → pyGet2 gb i j0 = .ok t →
      (∀ j ∈ cols, ∀ v, pyGet2 gb i j = .ok v → v = t → j = j0) →
      dictGet d' t = some (i, j0) := by
  intro cols
  induction cols with
  | nil => intro d d' t j0 _ _ hj0; cases hj0
  | cons j js ih =>
    intro d d' t j0 h hnd hj0 hget huniq
    rw [bgp_cols] at h
    cases hv : pyGet2 gb i j with
    | error e => rw [hv] at h; simp at h
    | ok v =>
      rw [hv, except_bind_ok] at h
      rcases List.mem_cons.1 hj0 with he | hjs
      · subst he
        have hvt : v = t := by
          rw [hget] at hv; exact (Except.ok.inj hv).symm
        subst hvt
        have hrest : ∀ x ∈ js, ∀ w, pyGet2 gb i x = .ok w → w ≠ v := by
          intro x hx w hw hwv
          have := huniq x (List.mem_cons_of_mem _ hx) w hw hwv
          subst this
          exact (List.nodup_cons.1 hnd).1 hx
        rw [bgp_cols_frame js _ _ _ h hrest, dictGet_insert, if_pos rfl]
      · have hvnet : v ≠ t := by
          intro hvt
          have := huniq j (List.mem_cons_self _ _) v hv hvt
          subst this
          exact (List.nodup_cons.1 hnd).1 hjs
        exact ih _ _ _ _ h (List.nodup_cons.1 hnd).2 hjs hget
          (fun x hx w hw hwt => huniq x (List.mem_cons_of_mem _ hx) w hw hwt)

theorem bgp_rows_total {gb : Board} :
    ∀ (rows : List Int) (d : GoalDict),
      (∀ i ∈ rows, ∀ j ∈ pyRange (gb.length : Int), ∃ v, pyGet2 gb i j = .ok v) →
      ∃ d', bgp_rows gb rows d = .ok d'
  | [], d, _ => ⟨d, rfl⟩
  | i :: is', d, h => by
    rcases bgp_cols_total (pyRange (gb.length : Int)) d
      (h i (List.mem_cons_self _ _)) with ⟨d1, hd1⟩
    rw [bgp_rows, hd1, except_bind_ok]
    exact bgp_rows_total is' d1 (fun x hx => h x (List.mem_cons_of_mem _ hx))

theorem bgp_rows_frame {gb : Board} :
    ∀ (rows : List Int) (d d' : GoalDict) (t : Int),
      bgp_rows gb rows d = .ok d' →
      (∀ i ∈ rows, ∀ j ∈ pyRange (gb.length : Int), ∀ v,
        pyGet2 gb i j = .ok v → v ≠ t) →
      dictGet d' t = dictGet d t := by
  intro rows
  induction rows with
  | nil => intro d d' t h _; cases h; rfl
  | cons i is' ih =>
    intro d d' t h hne
    rw [bgp_rows] at h
    cases hd1 : bgp_cols gb i (pyRange (gb.length : Int)) d with
    | error e => rw [hd1] at h; simp at h
    | ok d1 =>
      rw [hd1, except_bind_ok] at h
      rw [ih _ _ _ h (fun x hx => hne x (List.mem_cons_of_mem _ hx))]
      exact bgp_cols_frame _ _ _ _ hd1 (hne i (List.mem_cons_self _ _))

theorem bgp_rows_hit {gb : Board} :
    ∀ (rows : List Int) (d d' : GoalDict) (t : Int) (i0 j0 : Int),
      bgp_rows gb rows d = .ok d' → rows.Nodup →
      i0 ∈ rows → j0 ∈ pyRange (gb.length : Int) →
      pyGet2 gb i0 j0 = .ok t →
      (∀ i ∈ rows, ∀ j ∈ pyRange (gb.length : Int), ∀ v,
        pyGet2 gb i j = .ok v → v = t → i = i0 ∧ j = j0) →
      dictGet d' t = some (i0, j0) := by
  intro rows
  induction rows with
  | nil => intro d d' t i0 j0 _ _ hi0; cases hi0
  | cons i is' ih =>
    intro d d' t i0 j0 h hnd hi0 hj0 hget huniq
    rw [bgp_rows] at h
    cases hd1 : bgp_cols gb i (pyRange (gb.length : Int)) d with
    | error e => rw [hd1] at h; simp at h
    | ok d1 =>
      rw [hd1, except_bind_ok] at h
      rcases List.mem_cons.1 hi0 with he | his
      · subst he
        have hhit : dictGet d1 t = some (i0, j0) := by
          refine bgp_cols_hit _ _ _ _ _ hd1 (pyRange_nodup _) hj0 hget ?_
          intro j hj v hv hvt
          exact (huniq i0 (List.mem_cons_self _ _) j hj v hv hvt).2
        have hrest : ∀ x ∈ is', ∀ j ∈ pyRange (gb.length : Int), ∀ v,
            pyGet2 gb x j = .ok v → v ≠ t := by
          intro x hx j hj v hv hvt
          have := (huniq x (List.mem_cons_of_mem _ hx) j hj v hv hvt).1
          subst this
          exact (List.nodup_cons.1 hnd).1 hx
        rw [bgp_rows_frame _ _ _ _ h hrest]
        exact hhit
      · have hrowne : ∀ j ∈ pyRange (gb.length : Int), ∀ v,
            pyGet2 gb i j = .ok v → v ≠ t := by
          intro j hj v hv hvt
          have := (huniq i (List.mem_cons_self _ _) j hj v hv hvt).1
          subst this
          exact (List.nodup_cons.1 hnd).1 his
        exact ih _ _ _ _ _ h (List.nodup_cons.1 hnd).2 his hj0 hget
          (fun x hx j hj v hv hvt => huniq x (List.mem_cons_of_mem _ hx) j hj v hv hvt)

theorem sum_two_point {s : Finset (Nat × Nat)} (f g : Nat × Nat → Int)
    {a b : Nat × Nat} (hab : a ≠ b) (ha : a ∈ s) (hb : b ∈ s)
    (hoff : ∀ x ∈ s, x ≠ a → x ≠ b → f x = g x) :
    (∑ x ∈ s, f x) - (∑ x ∈ s, g x) = (f a - g a) + (f b - g b) := by
  have key : (∑ x ∈ s, (f x - g x)) = ∑ x ∈ ({a, b} : Finset (Nat × Nat)), (f x - g x) := by
    symm
    apply Finset.sum_subset
    · intro x hx
      rcases Finset.mem_insert.1 hx with rfl | hx2
      · exact ha
      · rw [Finset.mem_singleton.1 hx2]; exact hb
    · intro x hx hnx
      have hxa : x ≠ a := fun h => hnx (by rw [h]; exact Finset.mem_insert_self _ _)
      have hxb : x ≠ b := fun h => hnx (by
        rw [h]; exact Finset.mem_insert_of_mem (Finset.mem_singleton_self _))
      rw [hoff x hx hxa hxb]
      ring
  rw [← Finset.sum_sub_distrib, key, Finset.sum_pair hab]

theorem valid_label_cell {gb : Board} {n : Int} (hvb : validBoard gb n) {t : Int}
    (h0 : 0 ≤ t) (h1 : t < n * n) :
    ∃ i j : Nat, i < n.toNat ∧ j < n.toNat ∧ cellN gb i j = t := by
  have hs := hvb.2.1
  have hbl : gb.length = n.toNat := hs.2.1
  have hn := hvb.1
  have hcast : (n.toNat : Int) * (n.toNat : Int) = n * n := by
    rw [Int.toNat_of_nonneg (by omega)]
  have hmem : t ∈ gb.flatten := by
    refine hvb.2.2.mem_iff.2 ?_
    refine List.mem_map.2 ⟨t.toNat, ?_, ?_⟩
    · rw [List.mem_range]
      omega
    · simp only [Int.ofNat_eq_natCast]
      omega
  rcases List.mem_flatten.1 hmem with ⟨row, hrow, htrow⟩
  rcases List.mem_iff_getElem.1 hrow with ⟨i, hi, hgi⟩
  rcases List.mem_iff_getElem.1 htrow with ⟨j, hj, hgj⟩
  have hrl : row.length = n.toNat := hs.2.2 _ hrow
  refine ⟨i, j, by omega, by omega, ?_⟩
  unfold cellN
  rw [List.getD_eq_getElem _ _ hi, hgi, List.getD_eq_getElem _ _ hj]
  exact hgj

theorem build_goal_positions_get {gb : Board} {n : Int} (hvb : validBoard gb n) :
    ∃ gp, build_goal_positions gb = .ok gp ∧
      ∀ i j : Nat, i < n.toNat → j < n.toNat →
        dictGet gp (cellN gb i j) = some ((i : Int), (j : Int)) := by
  have hs := hvb.2.1
  have hbl : gb.length = n.toNat := hs.2.1
  have hn := hvb.1
  have hreads : ∀ i ∈ pyRange (gb.length : Int), ∀ j ∈ pyRange (gb.length : Int),
      ∃ v, pyGet2 gb i j = .ok v := by
    intro i hi j hj
    rw [mem_pyRange] at hi hj
    exact ⟨_, pyGet2_eq_ok hs i j hi.1 (by omega) hj.1 (by omega)⟩
  rcases bgp_rows_total (pyRange (gb.length : Int)) [] hreads with ⟨gp, hgp⟩
  refine ⟨gp, hgp, ?_⟩
  intro i j hi hj
  have hget : pyGet2 gb (i : Int) (j : Int) = .ok (cellN gb i j) := by
    have := pyGet2_eq_ok hs (i : Int) (j : Int) (by omega) (by omega) (by omega) (by omega)
    simpa [Int.toNat_natCast] using this
  refine bgp_rows_hit _ _ _ _ _ _ hgp (pyRange_nodup _)
    (mem_pyRange.2 ⟨by omega, by omega⟩) (mem_pyRange.2 ⟨by omega, by omega⟩)
    hget ?_
  intro i' hi' j' hj' v hv hvt
  rw [mem_pyRange] at hi' hj'
  have hv' : pyGet2 gb i' j' = .ok (cellN gb i'.toNat j'.toNat) :=
    pyGet2_eq_ok hs i' j' hi'.1 (by omega) hj'.1 (by omega)
  rw [hv'] at hv
  have hcell : cellN gb i'.toNat j'.toNat = cellN gb i j :=
    (Except.ok.inj hv).trans hvt
  have := valid_cell_inj hvb (by omega) (by omega) hi hj hcell
  constructor
  · omega
  · omega

/-! ### Claims C9, C10, C4, C3 (counterexamples) -/

/-- C10: `get_possible_moves` returns its result in the fixed order
`UP`, `DOWN`, `LEFT`, `RIGHT` — it is exactly the subsequence of
`["UP", "DOWN", "LEFT", "RIGHT"]` consisting of the legal moves, so
neighbor generation (and hence the search's expansion order) is
deterministic. Confirmed. -/
theorem c10_theorem (p : Puzzle) :
    get_possible_moves p =
      (["UP", "DOWN", "LEFT", "RIGHT"]).filter (fun d => decide (moveLegal p d)) :=
  gpm_filter p

/-- Witness for C10 at a concrete state. -/
theorem c10_witness :
    get_possible_moves ⟨[[1, 0], [2, 3]], 2, (0, 1)⟩ = ["DOWN", "LEFT"] := by
  rw [c10_theorem ⟨[[1, 0], [2, 3]], 2, (0, 1)⟩]
  decide

/-- C9 counterexample: the valid 1×1 state (which `Puzzle.__init__` accepts)
has an empty `get_possible_moves`, so the claimed "size is in {2,3,4},
exactly 2 at a corner" fails on it — the blank is at a corner yet there
are 0 possible moves. -/
theorem c9_counterexample :
    mkPuzzle [[0]] 1 = .ok ⟨[[0]], 1, (0, 0)⟩ ∧
      validPuzzle ⟨[[0]], 1, (0, 0)⟩ ∧
      get_possible_moves ⟨[[0]], 1, (0, 0)⟩ = [] := by
  refine ⟨?_, ?_, ?_⟩ <;> decide

/-- C9 (amended): for every valid state with `size ≥ 2`, `possibleMoves()` is
exactly the subset of {UP, DOWN, LEFT, RIGHT} given by the four boundary
conditions, and its size is 2 at a corner, 3 on a non-corner edge, 4 in
the interior (hence always in {2,3,4}). -/
theorem c9_theorem (p : Puzzle) (r c : Int)
    (hv : validPuzzle p) (hbp : p.blank_pos = (r, c)) (hn : 2 ≤ p.size) :
    (("UP" ∈ get_possible_moves p ↔ 0 < r) ∧
     ("DOWN" ∈ get_possible_moves p ↔ r < p.size - 1) ∧
     ("LEFT" ∈ get_possible_moves p ↔ 0 < c) ∧
     ("RIGHT" ∈ get_possible_moves p ↔ c < p.size - 1)) ∧
    ((get_possible_moves p).length = 2 ∨ (get_possible_moves p).length = 3 ∨
      (get_possible_moves p).length = 4) ∧
    (((r = 0 ∨ r = p.size - 1) ∧ (c = 0 ∨ c = p.size - 1)) →
      (get_possible_moves p).length = 2) ∧
    ((((r = 0 ∨ r = p.size - 1) ∧ 0 < c ∧ c < p.size - 1) ∨
      ((c = 0 ∨ c = p.size - 1) ∧ 0 < r ∧ r < p.size - 1)) →
      (get_possible_moves p).length = 3) ∧
    ((0 < r ∧ r < p.size - 1 ∧ 0 < c ∧ c < p.size - 1) →
      (get_possible_moves p).length = 4) := by
  have hb := valid_blank_bounds hv
  rw [hbp] at hb
  have hlen := length_gpm p
  rw [hbp] at hlen
  constructor
  · refine ⟨?_, ?_, ?_, ?_⟩ <;>
      (rw [mem_gpm]; unfold moveLegal; rw [hbp]; simp)
  · refine ⟨?_, ?_, ?_, ?_⟩ <;>
      (rw [hlen]; split_ifs <;> omega)

/-- Witness for C9 at a concrete valid 3×3 state with the blank at the
top-left corner. -/
theorem c9_witness :
    validPuzzle ⟨[[0, 1, 2], [3, 4, 5], [6, 7, 8]], 3, (0, 0)⟩ ∧
      (get_possible_moves ⟨[[0, 1, 2], [3, 4, 5], [6, 7, 8]], 3, (0, 0)⟩).length = 2 := by
  have hv : validPuzzle ⟨[[0, 1, 2], [3, 4, 5], [6, 7, 8]], 3, (0, 0)⟩ := by decide
  refine ⟨hv, ?_⟩
  have h := c9_theorem _ 0 0 hv rfl (by decide)
  exact h.2.2.1 ⟨Or.inl rfl, Or.inl rfl⟩

/-- C4 counterexample: a board with two blanks (violating the permutation
invariant) is accepted by `Puzzle.__init__` — no `InvalidBoard` failure
occurs; `blank_pos` is silently set to the first `0`. -/
theorem c4_counterexample :
    mkPuzzle [[0, 0], [1, 2]] 2 = .ok ⟨[[0, 0], [1, 2]], 2, (0, 0)⟩ ∧
      ¬ validBoard [[0, 0], [1, 2]] 2 := by
  constructor
  · decide
  · decide

/-- C4 (amended): construction validates only the presence of a blank —
for an `n × n` board it succeeds iff some scanned cell is `0` (duplicate
labels, out-of-range labels and extra blanks are all accepted), fails only
with `ValueError` otherwise, and on success stores the board unchanged
with `blank_pos` an in-bounds cell holding `0`. -/
theorem c4_theorem (b : Board) (n : Int) (hs : boardShape b n) :
    ((∃ p, mkPuzzle b n = .ok p) ↔
      ∃ i j : Nat, i < n.toNat ∧ j < n.toNat ∧ cellN b i j = 0) ∧
    (mkPuzzle b n = .error .valueError ∨ ∃ p, mkPuzzle b n = .ok p) ∧
    (∀ p, mkPuzzle b n = .ok p → p.board = b ∧ p.size = n ∧
      0 ≤ p.blank_pos.1 ∧ p.blank_pos.1 < n ∧ 0 ≤ p.blank_pos.2 ∧
      p.blank_pos.2 < n ∧ cellN b p.blank_pos.1.toNat p.blank_pos.2.toNat = 0) := by
  have part3 : ∀ p, mkPuzzle b n = .ok p → p.board = b ∧ p.size = n ∧
      0 ≤ p.blank_pos.1 ∧ p.blank_pos.1 < n ∧ 0 ≤ p.blank_pos.2 ∧
      p.blank_pos.2 < n ∧ cellN b p.blank_pos.1.toNat p.blank_pos.2.toNat = 0 := by
    intro p hp
    rcases mkPuzzle_ok.1 hp with ⟨h1, h2, h3⟩
    rcases hbp : p.blank_pos with ⟨r, c⟩
    rw [hbp] at h1
    rcases find_blank_ok_cell hs h1 with ⟨k1, k2, k3, k4, k5⟩
    exact ⟨h2, h3, k1, k2, k3, k4, k5⟩
  refine ⟨⟨?_, ?_⟩, ?_, part3⟩
  · rintro ⟨p, hp⟩
    rcases part3 p hp with ⟨_, _, k1, k2, k3, k4, k5⟩
    exact ⟨p.blank_pos.1.toNat, p.blank_pos.2.toNat, by omega, by omega, k5⟩
  · rintro ⟨i, j, hi, hj, hz⟩
    rcases find_blank_exists_zero hs ⟨i, j, hi, hj, hz⟩ with ⟨rc, h⟩
    exact ⟨⟨b, n, rc⟩, mkPuzzle_of_find h⟩
  · rcases find_blank_rows_total (shape_reads_ok hs) with ⟨o, hg⟩
    cases o with
    | some rc =>
      exact Or.inr ⟨⟨b, n, rc⟩, mkPuzzle_of_find (find_blank_eq_of_rows_some hg)⟩
    | none =>
      left
      unfold mkPuzzle
      rw [find_blank_eq_of_rows_none hg, except_bind_error]

/-- Witness for C4 at the two-blank board: construction succeeds because a
`0` exists, even though the permutation invariant fails. -/
theorem c4_witness : ∃ p, mkPuzzle [[0, 0], [1, 2]] 2 = .ok p :=
  (c4_theorem [[0, 0], [1, 2]] 2 (by decide)).1.2 ⟨0, 0, by decide, by decide, by decide⟩

/-- C3 counterexample: from the valid state `[[0,1],[2,3]]` (blank at the
top-left), `"UP"` is not in `possibleMoves()`, yet `move_blank "UP"` does
not fail — Python's `-1` index wraps around and the blank is swapped with
the bottom-left tile. -/
theorem c3_counterexample :
    move_blank ⟨[[0, 1], [2, 3]], 2, (0, 0)⟩ "UP" =
        .ok ⟨[[2, 1], [0, 3]], 2, (1, 0)⟩ ∧
      validPuzzle ⟨[[0, 1], [2, 3]], 2, (0, 0)⟩ ∧
      "UP" ∉ get_possible_moves ⟨[[0, 1], [2, 3]], 2, (0, 0)⟩ := by
  refine ⟨?_, ?_, ?_⟩ <;> decide

/-- C3 (amended): `move_blank` fails with `ValueError` exactly for direction
strings other than the four tokens `UP`/`DOWN`/`LEFT`/`RIGHT` (a recognized
but positionally illegal direction is *not* rejected — see the
counterexample); when the direction is in `possibleMoves()`, it swaps the
blank with the adjacent tile in that direction and returns the new state. -/
theorem c3_theorem :
    (∀ (p : Puzzle) (d : String),
      d ∉ (["UP", "DOWN", "LEFT", "RIGHT"] : List String) →
      move_blank p d = .error .valueError) ∧
    (∀ (p : Puzzle) (d : String), validPuzzle p → d ∈ get_possible_moves p →
      ∃ q tr tc, moveTarget p.blank_pos d = some (tr, tc) ∧
        move_blank p d = .ok q ∧ q.size = p.size ∧ q.blank_pos = (tr, tc) ∧
        q.board = updateCell
          (updateCell p.board p.blank_pos.1.toNat p.blank_pos.2.toNat
            (cellN p.board tr.toNat tc.toNat))
          tr.toNat tc.toNat 0) := by
  constructor
  · intro p d hd
    simp only [List.mem_cons, List.not_mem_nil, or_false, not_or] at hd
    have hmt : moveTarget p.blank_pos d = none := by
      unfold moveTarget
      rw [if_neg hd.1, if_neg hd.2.1, if_neg hd.2.2.1, if_neg hd.2.2.2]
    unfold move_blank
    rw [hmt]
  · intro p d hv hd
    rcases move_blank_spec hv ((mem_gpm p d).1 hd) with
      ⟨tr, tc, ht, k1, k2, k3, k4, k5, k6, hok, k7⟩
    exact ⟨_, tr, tc, ht, hok, rfl, rfl, rfl⟩

/-- Witness for C3 at a concrete state: an unrecognized direction fails with
`ValueError`, and the legal `LEFT` move swaps blank and tile. -/
theorem c3_witness :
    move_blank ⟨[[1, 0], [2, 3]], 2, (0, 1)⟩ "NORTH" = .error .valueError ∧
    (∃ q tr tc,
      moveTarget (((0 : Int), (1 : Int)) : Int × Int) "LEFT" = some (tr, tc) ∧
      move_blank ⟨[[1, 0], [2, 3]], 2, (0, 1)⟩ "LEFT" = .ok q ∧
      q.size = 2 ∧ q.blank_pos = (tr, tc) ∧
      q.board = updateCell
        (updateCell [[1, 0], [2, 3]] 0 1 (cellN [[1, 0], [2, 3]] tr.toNat tc.toNat))
        tr.toNat tc.toNat 0) :=
  ⟨c3_theorem.1 ⟨[[1, 0], [2, 3]], 2, (0, 1)⟩ "NORTH" (by decide),
   c3_theorem.2 ⟨[[1, 0], [2, 3]], 2, (0, 1)⟩ "LEFT" (by decide) (by decide)⟩

/-- C8: the round-trip law — from a valid state, applying a legal move and
then its exact inverse (legal in the resulting state) yields a state whose
grid is structurally equal to the original grid. Confirmed. -/
theorem c8_theorem (p q : Puzzle) (d : String)
    (hv : validPuzzle p) (hd : d ∈ get_possible_moves p)
    (hq : move_blank p d = .ok q)
    (hinv : inverseDir d ∈ get_possible_moves q) :
    ∃ r', move_blank q (inverseDir d) = .ok r' ∧ r'.board = p.board := by
  have hs : boardShape p.board p.size := hv.1.2.1
  have hbl : p.board.length = p.size.toNat := hs.2.1
  rcases valid_blank_bounds hv with ⟨hb0, hb1, hb2, hb3, hz⟩
  rcases move_blank_spec hv ((mem_gpm p d).1 hd) with
    ⟨tr, tc, ht, ht0, ht1, ht2, ht3, hadj, htnz, hok, hinvt⟩
  rw [hq] at hok
  have hqe := (Except.ok.inj hok).symm
  subst hqe
  -- abbreviations
  set rN := p.blank_pos.1.toNat with hrN
  set cN := p.blank_pos.2.toNat with hcN
  set t := cellN p.board tr.toNat tc.toNat with htdef
  set B1 := updateCell p.board rN cN t with hB1
  set B2 := updateCell B1 tr.toNat tc.toNat 0 with hB2def
  have hs1 : boardShape B1 p.size := boardShape_updateCell hs _ _ _
  have hs2 : boardShape B2 p.size := boardShape_updateCell hs1 _ _ _
  have hneN : ¬(rN = tr.toNat ∧ cN = tc.toNat) := by
    rintro ⟨e1, e2⟩
    rcases hadj with ⟨ha, hb⟩ | ⟨ha, hb⟩ | ⟨ha, hb⟩ | ⟨ha, hb⟩ <;> omega
  have hpne : ((rN, cN) : Nat × Nat) ≠ (tr.toNat, tc.toNat) := by
    intro h; exact hneN ⟨congrArg Prod.fst h, congrArg Prod.snd h⟩
  have hpne' : ((tr.toNat, tc.toNat) : Nat × Nat) ≠ (rN, cN) := fun h => hpne h.symm
  -- cell values of B2
  have hlenB1 : B1.length = p.size.toNat := hs1.2.1
  have hlenB2 : B2.length = p.size.toNat := hs2.2.1
  have hrowB1 : (B1.getD tr.toNat []).length = p.size.toNat :=
    boardShape_row_len hs1 (by omega)
  have hcellB2_blank : cellN B2 rN cN = t := by
    rw [hB2def, cellN_updateCell_ne _ _ _ _ _ hpne, hB1]
    exact cellN_updateCell_same _ _ _ (by omega)
      (by rw [boardShape_row_len hs (by omega)]; omega)
  have hcellB2_tg : cellN B2 tr.toNat tc.toNat = 0 := by
    rw [hB2def]
    exact cellN_updateCell_same _ _ _ (by rw [hs1.2.1]; omega) (by rw [hrowB1]; omega)
  -- apply move_blank_ok to the second move
  have hmb2 := @move_blank_ok ⟨B2, p.size, (tr, tc)⟩ (inverseDir d)
    p.blank_pos.1 p.blank_pos.2 hs2 (by exact hinvt) ht0 ht1 ht2 ht3 hb0 hb1 hb2 hb3
  simp only at hmb2
  rw [hcellB2_blank, hcellB2_tg] at hmb2
  -- simplify the double update back to the original board
  have hrowB2 : (B2.getD tr.toNat []).length = p.size.toNat :=
    boardShape_row_len hs2 (by rw [hs2.2.1]; omega)
  have e1 : updateCell B2 tr.toNat tc.toNat t = B1 := by
    rw [hB2def, updateCell_collapse, hB1]
    have : cellN B1 tr.toNat tc.toNat = t := by
      rw [hB1, cellN_updateCell_ne _ _ _ _ _ hpne']
    rw [← hB1]
    rw [← this]
    exact updateCell_self (by rw [hs1.2.1]; omega) (by rw [hrowB1]; omega)
  have e2 : updateCell B1 rN cN 0 = p.board := by
    rw [hB1, updateCell_collapse]
    rw [← hz]
    exact updateCell_self (by omega)
      (by rw [boardShape_row_len hs (by omega)]; omega)
  rw [e1, e2] at hmb2
  refine ⟨⟨p.board, p.size, p.blank_pos⟩, ?_, rfl⟩
  rw [hmb2]
  have : find_blank p.board p.size = .ok (p.blank_pos.1, p.blank_pos.2) := by
    rw [← hv.2]
  exact mkPuzzle_of_find this

/-- Witness for C8: `DOWN` then `UP` from a concrete valid state restores the
original grid. -/
theorem c8_witness :
    ∃ r', move_blank ⟨[[1, 3], [2, 0]], 2, (1, 1)⟩ (inverseDir "DOWN") = .ok r' ∧
      r'.board = [[1, 0], [2, 3]] :=
  c8_theorem ⟨[[1, 0], [2, 3]], 2, (0, 1)⟩ ⟨[[1, 3], [2, 0]], 2, (1, 1)⟩ "DOWN"
    (by decide) (by decide) (by decide) (by decide)


/-- C5: properties of the Manhattan heuristic with the table built from a
valid goal board — the estimate of the goal state itself is `0`, the
estimate of every valid state is defined and `≥ 0`, and across any legal
single move the estimate changes by at most 1 (consistency). Confirmed. -/
theorem c5_theorem (n : Int) (gb : Board) (gp : GoalDict) (p : Puzzle)
    (hgb : validBoard gb n) (hgp : build_goal_positions gb = .ok gp)
    (hv : validPuzzle p) (hsz : p.size = n) :
    (∀ g, mkPuzzle gb n = .ok g → heuristic g gp = .ok 0) ∧
    (∃ h, heuristic p gp = .ok h ∧ 0 ≤ h) ∧
    (∀ d q, d ∈ get_possible_moves p → move_blank p d = .ok q →
      ∃ hp hq, heuristic p gp = .ok hp ∧ heuristic q gp = .ok hq ∧
        |hq - hp| ≤ 1) := by
  rcases build_goal_positions_get hgb with ⟨gp', hgp', hprops⟩
  obtain rfl : gp = gp' := Except.ok.inj (hgp.symm.trans hgp')
  have hn := hgb.1
  have hcovAll : ∀ t : Int, 0 ≤ t → t < n * n → (dictGet gp t).isSome = true := by
    intro t h0 h1
    rcases valid_label_cell hgb h0 h1 with ⟨i, j, hi, hj, hct⟩
    rw [← hct, hprops i j hi hj]
    rfl
  have hvbP : validBoard p.board n := by rw [← hsz]; exact hv.1
  have hsP : boardShape p.board n := hvbP.2.1
  have hblP : p.board.length = n.toNat := hsP.2.1
  have hcovP : ∀ i j : Nat, i < n.toNat → j < n.toNat →
      cellN p.board i j ≠ 0 → (dictGet gp (cellN p.board i j)).isSome = true := by
    intro i j hi hj _
    have := valid_cell_range hvbP hi hj
    exact hcovAll _ this.1 this.2
  refine ⟨?_, ?_, ?_⟩
  · intro g hg
    rcases mkPuzzle_ok.1 hg with ⟨hfb, hb, hszg⟩
    have hsG : boardShape g.board n := by rw [hb]; exact hgb.2.1
    have hcovG : ∀ i j : Nat, i < n.toNat → j < n.toNat →
        cellN g.board i j ≠ 0 → (dictGet gp (cellN g.board i j)).isSome = true := by
      intro i j hi hj hnz
      rw [hb]
      have := valid_cell_range hgb hi hj
      exact hcovAll _ this.1 this.2
    rw [heuristic_eq gp hsG hszg hcovG]
    congr 1
    rw [hb]
    unfold Hsum
    apply Finset.sum_eq_zero
    intro i hi
    apply Finset.sum_eq_zero
    intro j hj
    rw [Finset.mem_range] at hi hj
    unfold hterm
    by_cases hz : cellN gb i j = 0
    · rw [if_pos hz]
    · rw [if_neg hz]
      simp only [hprops i j hi hj]
      simp
  · refine ⟨Hsum p.board gp n.toNat, heuristic_eq gp hsP hsz hcovP, ?_⟩
    unfold Hsum
    apply Finset.sum_nonneg
    intro i _
    apply Finset.sum_nonneg
    intro j _
    unfold hterm
    by_cases hz : cellN p.board i j = 0
    · rw [if_pos hz]
    · rw [if_neg hz]
      cases hdg : dictGet gp (cellN p.board i j) with
      | none => simp [hdg]
      | some pr =>
        rcases pr with ⟨gr, gc⟩
        simp only [hdg]
        positivity
  · intro d q hd hq
    rcases move_blank_spec hv ((mem_gpm p d).1 hd) with
      ⟨tr, tc, ht, ht0, ht1, ht2, ht3, hadj, htnz, hok, hinvt⟩
    rw [hq] at hok
    have hqe := (Except.ok.inj hok).symm
    subst hqe
    rcases valid_blank_bounds hv with ⟨hb0, hb1, hb2, hb3, hz⟩
    rw [hsz] at hb1 hb3 ht1 ht3
    set rN := p.blank_pos.1.toNat with hrN
    set cN := p.blank_pos.2.toNat with hcN
    set t := cellN p.board tr.toNat tc.toNat with htdef
    set B1 := updateCell p.board rN cN t with hB1
    set B2 := updateCell B1 tr.toNat tc.toNat 0 with hB2
    have hs1 : boardShape B1 n := boardShape_updateCell hsP _ _ _
    have hs2 : boardShape B2 n := boardShape_updateCell hs1 _ _ _
    have hlenB1 : B1.length = n.toNat := hs1.2.1
    have htrange := valid_cell_range hvbP
      (show tr.toNat < n.toNat by omega) (show tc.toNat < n.toNat by omega)
    have hneN : ((rN, cN) : Nat × Nat) ≠ (tr.toNat, tc.toNat) := by
      intro hh
      have e1 : rN = tr.toNat := congrArg Prod.fst hh
      have e2 : cN = tc.toNat := congrArg Prod.snd hh
      rcases hadj with ⟨ha, hb⟩ | ⟨ha, hb⟩ | ⟨ha, hb⟩ | ⟨ha, hb⟩ <;> omega
    have hneN' : ((tr.toNat, tc.toNat) : Nat × Nat) ≠ (rN, cN) := fun hh => hneN hh.symm
    have hrowB1 : (B1.getD tr.toNat []).length = n.toNat :=
      boardShape_row_len hs1 (by omega)
    have hrowP : (p.board.getD rN []).length = n.toNat :=
      boardShape_row_len hsP (by omega)
    have hcB2a : cellN B2 rN cN = t := by
      rw [hB2, cellN_updateCell_ne _ _ _ _ _ hneN, hB1]
      exact cellN_updateCell_same _ _ _ (by omega) (by rw [hrowP]; omega)
    have hcB2b : cellN B2 tr.toNat tc.toNat = 0 := by
      rw [hB2]
      exact cellN_updateCell_same _ _ _ (by omega) (by rw [hrowB1]; omega)
    have hcovQ : ∀ i j : Nat, i < n.toNat → j < n.toNat →
        cellN B2 i j ≠ 0 → (dictGet gp (cellN B2 i j)).isSome = true := by
      intro i j hi hj hnz
      by_cases hija : ((i, j) : Nat × Nat) = (tr.toNat, tc.toNat)
      · exfalso
        have e1 : i = tr.toNat := congrArg Prod.fst hija
        have e2 : j = tc.toNat := congrArg Prod.snd hija
        subst e1; subst e2
        exact hnz hcB2b
      · rw [hB2, cellN_updateCell_ne _ _ _ _ _ hija] at hnz ⊢
        by_cases hijb : ((i, j) : Nat × Nat) = (rN, cN)
        · have e1 : i = rN := congrArg Prod.fst hijb
          have e2 : j = cN := congrArg Prod.snd hijb
          subst e1; subst e2
          rw [hB1, cellN_updateCell_same _ _ _ (by omega) (by rw [hrowP]; omega)]
          exact hcovAll _ htrange.1 htrange.2
        · rw [hB1, cellN_updateCell_ne _ _ _ _ _ hijb]
          have := valid_cell_range hvbP hi hj
          exact hcovAll _ this.1 this.2
    have hpEq := heuristic_eq gp hsP hsz hcovP
    have hqEq := @heuristic_eq ⟨B2, p.size, (tr, tc)⟩ n gp hs2 hsz hcovQ
    refine ⟨_, _, hpEq, hqEq, ?_⟩
    have hprod : ∀ b : Board, Hsum b gp n.toNat =
        ∑ x ∈ Finset.range n.toNat ×ˢ Finset.range n.toNat,
          hterm gp (x.1 : Int) (x.2 : Int) (cellN b x.1 x.2) := by
      intro b
      unfold Hsum
      rw [Finset.sum_product]
    have hdiff : Hsum B2 gp n.toNat - Hsum p.board gp n.toNat =
        (hterm gp (rN : Int) (cN : Int) (cellN B2 rN cN) -
          hterm gp (rN : Int) (cN : Int) (cellN p.board rN cN)) +
        (hterm gp (tr.toNat : Int) (tc.toNat : Int) (cellN B2 tr.toNat tc.toNat) -
          hterm gp (tr.toNat : Int) (tc.toNat : Int) t) := by
      rw [hprod, hprod]
      exact sum_two_point _ _ hneN
        (Finset.mem_product.2 ⟨Finset.mem_range.2 (by omega), Finset.mem_range.2 (by omega)⟩)
        (Finset.mem_product.2 ⟨Finset.mem_range.2 (by omega), Finset.mem_range.2 (by omega)⟩)
        (by
          intro x hx hxa hxb
          have hxa2 : ((x.1, x.2) : Nat × Nat) ≠ (rN, cN) := by
            rw [Prod.mk.eta]; exact hxa
          have hxb2 : ((x.1, x.2) : Nat × Nat) ≠ (tr.toNat, tc.toNat) := by
            rw [Prod.mk.eta]; exact hxb
          rw [hB2, cellN_updateCell_ne _ _ _ _ _ hxb2, hB1,
            cellN_updateCell_ne _ _ _ _ _ hxa2])
    rw [hdiff, hcB2a, hcB2b, hz]
    have h0 : ∀ x y : Int, hterm gp x y 0 = 0 := by
      intro x y; unfold hterm; rw [if_pos rfl]
    rcases valid_label_cell hgb htrange.1 htrange.2 with ⟨gi, gj, hgi, hgj, hgct⟩
    have hdt : dictGet gp t = some ((gi : Int), (gj : Int)) := by
      rw [htdef, ← hgct]; exact hprops gi gj hgi hgj
    have hT : ∀ x y : Int, hterm gp x y t = |x - (gi : Int)| + |y - (gj : Int)| := by
      intro x y
      unfold hterm
      rw [if_neg htnz]
      simp only [hdt]
    rw [h0, h0, hT, hT]
    have e1 : ((rN : Nat) : Int) = p.blank_pos.1 := Int.toNat_of_nonneg hb0
    have e2 : ((cN : Nat) : Int) = p.blank_pos.2 := Int.toNat_of_nonneg hb2
    have e3 : ((tr.toNat : Nat) : Int) = tr := Int.toNat_of_nonneg ht0
    have e4 : ((tc.toNat : Nat) : Int) = tc := Int.toNat_of_nonneg ht2
    rw [abs_le]
    rcases abs_cases ((rN : Int) - (gi : Int)) with ⟨a1, a1'⟩ | ⟨a1, a1'⟩ <;>
      rcases abs_cases ((cN : Int) - (gj : Int)) with ⟨a2, a2'⟩ | ⟨a2, a2'⟩ <;>
      rcases abs_cases ((tr.toNat : Int) - (gi : Int)) with ⟨a3, a3'⟩ | ⟨a3, a3'⟩ <;>
      rcases abs_cases ((tc.toNat : Int) - (gj : Int)) with ⟨a4, a4'⟩ | ⟨a4, a4'⟩ <;>
      rcases hadj with ⟨ha, hb⟩ | ⟨ha, hb⟩ | ⟨ha, hb⟩ | ⟨ha, hb⟩ <;>
      constructor <;> omega

/-- Witness for C5 at size 2: goal `[[0,1],[2,3]]` and start `[[1,0],[2,3]]`. -/
theorem c5_witness :
    (∀ g, mkPuzzle [[0, 1], [2, 3]] 2 = .ok g →
      heuristic g [(3, (1, 1)), (2, (1, 0)), (1, (0, 1)), (0, (0, 0))] = .ok 0) ∧
    (∃ h, heuristic ⟨[[1, 0], [2, 3]], 2, (0, 1)⟩
        [(3, (1, 1)), (2, (1, 0)), (1, (0, 1)), (0, (0, 0))] = .ok h ∧ 0 ≤ h) ∧
    (∀ d q, d ∈ get_possible_moves ⟨[[1, 0], [2, 3]], 2, (0, 1)⟩ →
      move_blank ⟨[[1, 0], [2, 3]], 2, (0, 1)⟩ d = .ok q →
      ∃ hp hq, heuristic ⟨[[1, 0], [2, 3]], 2, (0, 1)⟩
          [(3, (1, 1)), (2, (1, 0)), (1, (0, 1)), (0, (0, 0))] = .ok hp ∧
        heuristic q [(3, (1, 1)), (2, (1, 0)), (1, (0, 1)), (0, (0, 0))] = .ok hq ∧
        |hq - hp| ≤ 1) :=
  c5_theorem 2 [[0, 1], [2, 3]] [(3, (1, 1)), (2, (1, 0)), (1, (0, 1)), (0, (0, 0))]
    ⟨[[1, 0], [2, 3]], 2, (0, 1)⟩ (by decide) (by decide) (by decide) rfl


/-! ### Claims about the search loop (C1, C2, C6, C7) -/

/-- C1 (code bug): a valid, solvable start — one `LEFT` away from the goal —
on which `astar_search` raises `TypeError` instead of returning the
one-move solution. The frontier entries `(f, puzzle)` carry no tie-break,
so popping with two tied entries compares `Puzzle` objects, which Python
cannot order. (In the actual file the failure is even earlier: `heapq` is
never imported and the `Dict` annotation is undefined, so the module does
not even load.) -/
theorem c1_theorem :
    mkPuzzle [[1, 0, 2], [3, 4, 5], [6, 7, 8]] 3 =
      .ok ⟨[[1, 0, 2], [3, 4, 5], [6, 7, 8]], 3, (0, 1)⟩ ∧
    validPuzzle ⟨[[1, 0, 2], [3, 4, 5], [6, 7, 8]], 3, (0, 1)⟩ ∧
    (∃ q, move_blank ⟨[[1, 0, 2], [3, 4, 5], [6, 7, 8]], 3, (0, 1)⟩ "LEFT" = .ok q ∧
      is_goal_state q [[0, 1, 2], [3, 4, 5], [6, 7, 8]] = true) ∧
    astar_search 10 ⟨[[1, 0, 2], [3, 4, 5], [6, 7, 8]], 3, (0, 1)⟩
      [[0, 1, 2], [3, 4, 5], [6, 7, 8]] = .error .typeError := by
  refine ⟨by decide, by decide,
    ⟨⟨[[0, 1, 2], [3, 4, 5], [6, 7, 8]], 3, (0, 0)⟩, by decide, by decide⟩, by decide⟩

/-- C2 (code bug): the frontier entries pushed by `astar_search` are bare
`(f_score, puzzle)` pairs with no insertion-sequence tie-break. From the
valid start `[[0,2],[1,3]]` the first expansion pushes two entries with
equal `f = 4`; the push comparison falls through to comparing the
`Puzzle` objects and raises `TypeError`, so the pop/push machinery fails
instead of every pop succeeding. -/
theorem c2_theorem :
    validPuzzle ⟨[[0, 2], [1, 3]], 2, (0, 0)⟩ ∧
    astar_search 10 ⟨[[0, 2], [1, 3]], 2, (0, 0)⟩ [[0, 1], [2, 3]] =
      .error .typeError := by
  exact ⟨by decide, by decide⟩

/-- C6 (code bug): on the unsolvable valid start `[[1,2],[0,3]]` (an odd
permutation with even blank distance), `astar_search` raises `TypeError`
at the first tied pair of frontier entries instead of exhausting the
frontier and returning `None`. -/
theorem c6_theorem :
    validPuzzle ⟨[[1, 2], [0, 3]], 2, (1, 0)⟩ ∧
    astar_search 10 ⟨[[1, 2], [0, 3]], 2, (1, 0)⟩ [[0, 1], [2, 3]] =
      .error .typeError := by
  exact ⟨by decide, by decide⟩

/-- C7 counterexample: the claim — after popping an entry whose recorded
cost `f` no longer matches `gScore[key] + h` (a superseded duplicate),
the loop discards it and continues without goal-testing or expanding —
is false: the loop body has no such check. At a concrete stale
configuration whose popped state is the goal, the body returns the
reconstructed path instead of discarding the entry. -/
theorem c7_counterexample :
    ¬ (∀ (gb : Board) (gp : GoalDict) (f : Int) (current : Puzzle)
        (os : List Entry) (cf : CameFrom) (gs fs : ScoreDict) (g h : Int),
        dictGet gs (get_state_key current) = some g →
        heuristic current gp = .ok h →
        f ≠ g + h →
        astar_iter gb gp current os cf gs fs = .ok (.next os cf gs fs)) := by
  intro H
  have h1 := H [[0, 1], [2, 3]] [(3, (1, 1)), (2, (1, 0)), (1, (0, 1)), (0, (0, 0))] 99
    ⟨[[0, 1], [2, 3]], 2, (0, 0)⟩ [] [] [([[0, 1], [2, 3]], 5)] [] 5 0
    (by decide) (by decide) (by decide)
  have h2 : astar_iter [[0, 1], [2, 3]]
      [(3, (1, 1)), (2, (1, 0)), (1, (0, 1)), (0, (0, 0))]
      ⟨[[0, 1], [2, 3]], 2, (0, 0)⟩ [] [] [([[0, 1], [2, 3]], 5)] [] =
      .ok (.found []) := by decide
  rw [h2] at h1
  exact absurd h1 (by decide)

/-- C7 (amended): the loop performs no staleness check at all — every popped
entry is processed; in particular even when the popped entry is stale
(its `f` differs from the current `gScore[key] + h`), a goal state still
ends the search with the reconstructed path rather than being discarded. -/
theorem c7_theorem (gb : Board) (gp : GoalDict) (f : Int) (current : Puzzle)
    (os : List Entry) (cf : CameFrom) (gs fs : ScoreDict) (g h : Int)
    (path : List String)
    (hg : dictGet gs (get_state_key current) = some g)
    (hh : heuristic current gp = .ok h)
    (hstale : f ≠ g + h)
    (hgoal : is_goal_state current gb = true)
    (hrec : reconstruct_path (cf.length + 1) cf current = some path) :
    astar_iter gb gp current os cf gs fs = .ok (.found path) := by
  unfold astar_iter
  simp only [hgoal, hrec]
  rw [if_pos trivial]

/-- Witness for C7 at the concrete stale configuration of the
counterexample. -/
theorem c7_witness :
    astar_iter [[0, 1], [2, 3]] [(3, (1, 1)), (2, (1, 0)), (1, (0, 1)), (0, (0, 0))]
      ⟨[[0, 1], [2, 3]], 2, (0, 0)⟩ [] [] [([[0, 1], [2, 3]], 5)] [] =
      .ok (.found []) :=
  c7_theorem [[0, 1], [2, 3]] [(3, (1, 1)), (2, (1, 0)), (1, (0, 1)), (0, (0, 0))] 99
    ⟨[[0, 1], [2, 3]], 2, (0, 0)⟩ [] [] [([[0, 1], [2, 3]], 5)] [] 5 0 []
    (by decide) (by decide) (by decide) (by decide) (by decide)


end SlidingPuzzle
